import Mathlib

/-!
Verification of the employee lifecycle / attendance synchronization engine.

The definitions below are a shallow embedding of the Python sources:
* `classify`, the lifecycle classifier embedded from the priority filter in
  `CleanDataEmployeeLeft.get_left_employees_for_cleanup`
  (02.clean_data_employee_left.py, lines 292-320);
* `is_in_bypass_period`, embedded from `local_config.is_in_bypass_period`
  (local_config.py, lines 154-170), with wall-clock HH:MM times represented
  as minutes since midnight (the HH:MM string order used by the source is
  the numeric order on minutes).

Dates are represented as absolute day ordinals (`Int`), so that
`today - relieving_date` in days is an `Int` subtraction, exactly the value
`(today - relieving_dt).days` computed by the source.
-/

set_option maxHeartbeats 1600000

namespace BiometricSync

/-- The three outcomes of the lifecycle classification of a Left employee. -/
inductive LifecycleAction where
  | noAction
  | clearTemplates
  | purge
deriving DecidableEq, Repr

/-- Lifecycle classifier embedded from
`CleanDataEmployeeLeft.get_left_employees_for_cleanup`
(02.clean_data_employee_left.py, lines 289-320):
a missing/unparseable `relieving_date` is `none` and yields no action;
otherwise `should_permanently_delete = delete_after_days > 0 and
days_since_relieving > delete_after_days` is checked first, and
`should_clear_templates = (not should_permanently_delete) and
days_since_relieving >= delay_days` second. -/
def classify (relieving : Option Int) (today delayDays deleteAfterDays : Int) :
    LifecycleAction :=
  match relieving with
  | none => .noAction
  | some r =>
    let days := today - r
    if deleteAfterDays > 0 ∧ days > deleteAfterDays then .purge
    else if days ≥ delayDays then .clearTemplates
    else .noAction

/-- One configured bypass window (local_config.py, `sync_log_by_pass_period`
entries): `start`/`endTime` are HH:MM wall-clock times in minutes since
midnight, `reason` the logging label. The Python `end` key is renamed
`endTime` because `end` is a Lean keyword. -/
structure BypassPeriod where
  start : Nat
  endTime : Nat
  reason : String
deriving DecidableEq, Repr

/-- Containment test of one bypass window, embedded from the body of the
loop in `local_config.is_in_bypass_period` (local_config.py, lines 163-168):
a same-day window (`start <= end`) contains `t` iff `start <= t <= end`;
a window crossing midnight contains `t` iff `t >= start or t <= end`. -/
def periodContains (p : BypassPeriod) (t : Nat) : Bool :=
  if p.start ≤ p.endTime then decide (p.start ≤ t ∧ t ≤ p.endTime)
  else decide (t ≥ p.start ∨ t ≤ p.endTime)

/-- Embedded from `local_config.is_in_bypass_period` (local_config.py,
lines 154-170): scans the configured windows in order and returns
`(True, period)` for the first window containing the current time,
`(False, None)` when none does. -/
def is_in_bypass_period (periods : List BypassPeriod) (current : Nat) :
    Bool × Option BypassPeriod :=
  match periods with
  | [] => (false, none)
  | p :: rest =>
    if periodContains p current then (true, some p)
    else is_in_bypass_period rest current

/-- One raw overtime event document as consumed by
`OTSyncFromMongoDB.deduplicate_records` (05.sync_ot_from_mongodb_to_erpnext.py).
`mongoId` embeds the monotonically increasing Mongo `_id` (the sequence id);
the remaining fields are `Option String`, `none` for a missing key, `some ""`
for a present-but-falsy value. `otDate` holds the canonical rendering of the
parsed calendar date (`none` when the document carries no parseable date);
`requestDate` likewise. -/
structure OTRecord where
  mongoId : Nat
  otDate : Option String
  empId : Option String
  otTimeBegin : Option String
  otTimeEnd : Option String
  requestNo : Option String
  requestDate : Option String
deriving DecidableEq, Repr

/-- Python truthiness of an optional string field: present and non-empty. -/
def truthyStr : Option String → Bool
  | none => false
  | some s => !s.isEmpty

/-- The guard `if not all([ot_date, emp_id, ot_time_begin, ot_time_end])`
of `deduplicate_records` (lines 213-215): all four key fields present and
truthy. -/
def hasKeyFields (r : OTRecord) : Bool :=
  truthyStr r.otDate && truthyStr r.empId && truthyStr r.otTimeBegin &&
    truthyStr r.otTimeEnd

/-- The duplicate-detection key `(ot_date_str, str(emp_id),
str(ot_time_begin), str(ot_time_end))` of `deduplicate_records` (line 227). -/
abbrev OTKey := String × String × String × String

/-- Key of one OT record (only ever used on records satisfying
`hasKeyFields`, for which the defaults are never taken). -/
def recordKey (r : OTRecord) : OTKey :=
  (r.otDate.getD "", r.empId.getD "", r.otTimeBegin.getD "",
   r.otTimeEnd.getD "")

/-- Ordered-dictionary update embedded from the duplicate branch of
`deduplicate_records` (lines 229-243): Python dicts preserve insertion
order and value replacement keeps the key's position. Returns the updated
association list together with the duplicate flag: when the key is already
present, the stored record is replaced only if the new record has a
strictly lower `_id`, and the event counts as a duplicate either way. -/
def updateUnique (r : OTRecord) :
    List (OTKey × OTRecord) → List (OTKey × OTRecord) × Bool
  | [] => ([(recordKey r, r)], false)
  | (k, r') :: rest =>
    if recordKey r = k then
      (if r.mongoId < r'.mongoId then (k, r) :: rest else (k, r') :: rest, true)
    else
      ((k, r') :: (updateUnique r rest).1, (updateUnique r rest).2)

/-- One iteration of the loop of `deduplicate_records` (lines 205-243):
events missing a key field are skipped outright; otherwise the ordered map
is updated and the duplicate counter advanced when the key was seen. -/
def dedupStep (st : List (OTKey × OTRecord) × Nat) (r : OTRecord) :
    List (OTKey × OTRecord) × Nat :=
  if hasKeyFields r then
    ((updateUnique r st.1).1,
     st.2 + (if (updateUnique r st.1).2 then 1 else 0))
  else st

/-- The final `unique_records` map and `duplicate_count` of
`deduplicate_records` applied to the whole input list. -/
def dedupState (records : List OTRecord) : List (OTKey × OTRecord) × Nat :=
  records.foldl dedupStep ([], 0)

/-- Embeds `OTSyncFromMongoDB.deduplicate_records` (lines 189-251):
`list(unique_records.values())` in insertion order. -/
def deduplicate_records (records : List OTRecord) : List OTRecord :=
  (dedupState records).1.map Prod.snd

/-- The `duplicate_count` reported by `deduplicate_records`. -/
def duplicateCount (records : List OTRecord) : Nat :=
  (dedupState records).2

/-- Append a record to its request group, embedded from
`grouped[request_no].append(record)` over a `defaultdict(list)`
(lines 266-271): groups keep first-seen order, members keep list order. -/
def addToGroup (groups : List (String × List OTRecord)) (rq : String)
    (r : OTRecord) : List (String × List OTRecord) :=
  match groups with
  | [] => [(rq, [r])]
  | (k, rs) :: rest =>
    if k = rq then (k, rs ++ [r]) :: rest
    else (k, rs) :: addToGroup rest rq r

/-- Embeds `OTSyncFromMongoDB.group_records_by_request` (lines 253-274):
deduplicate, then group the surviving records by truthy `requestNo`. -/
def group_records_by_request (records : List OTRecord) :
    List (String × List OTRecord) :=
  (deduplicate_records records).foldl
    (fun groups r =>
      match r.requestNo with
      | none => groups
      | some rq => if rq.isEmpty then groups else addToGroup groups rq r)
    []

/-- One child row of an Overtime Registration
(`ot_employees.append({...})`, lines 435-440). -/
structure OTDetailRow where
  employee : String
  date : String
  begin_time : String
  end_time : String
deriving DecidableEq, Repr

/-- Embeds `if len(begin_time) == 5: begin_time += ':00'` (lines 412-415). -/
def normalizeTime (s : String) : String :=
  if s.length = 5 then s ++ ":00" else s

/-- Detail-row extraction of one record inside the loop of
`create_ot_registration` (lines 395-420): the row is dropped (`none`) when
`otDate` is not a parseable date (the `else: continue` branch) or `empId`
is missing/falsy; times default to `'17:00'` / `'19:00'` when the key is
absent and are normalized to HH:MM:SS. -/
def rowData (r : OTRecord) : Option OTDetailRow :=
  match r.otDate with
  | none => none
  | some d =>
    let b := normalizeTime (r.otTimeBegin.getD "17:00")
    let e := normalizeTime (r.otTimeEnd.getD "19:00")
    match r.empId with
    | none => none
    | some emp => if emp.isEmpty then none else some ⟨emp, d, b, e⟩

/-- The row loop of `create_ot_registration` (lines 395-440): accumulates
the surviving `ot_employees` and the conflict-skipped `skipped_employees`,
in input order. The ERPNext conflict query
(`check_employee_ot_conflict`) is an external collaborator and is passed
in as the predicate `conflict` on the row data it receives. -/
def buildRows (conflict : OTDetailRow → Bool) (records : List OTRecord) :
    List OTDetailRow × List OTDetailRow :=
  records.foldl
    (fun acc r =>
      match rowData r with
      | none => acc
      | some row =>
        if conflict row then (acc.1, acc.2 ++ [row])
        else (acc.1 ++ [row], acc.2))
    ([], [])

/-- Outcome of `create_ot_registration` up to the external POST:
`submitted rows` means the Overtime Registration document was prepared and
sent with exactly `rows` as its `ot_employees` child table. -/
inductive CreateOutcome where
  | skippedExists
  | skippedAllConflict (skipped : List OTDetailRow)
  | failedNoValid
  | submitted (rows : List OTDetailRow)
deriving DecidableEq, Repr

/-- Outcomes reported with `'success': False` before the POST
(line 455: `No valid employee records`). -/
def CreateOutcome.isFailure : CreateOutcome → Bool
  | .failedNoValid => true
  | _ => false

/-- Outcomes reported with `'success': True, 'skipped': True`
(lines 370-375 and 445-450). -/
def CreateOutcome.isSkip : CreateOutcome → Bool
  | .skippedExists => true
  | .skippedAllConflict _ => true
  | _ => false

/-- Embeds `OTSyncFromMongoDB.create_ot_registration` (lines 356-459), up
to the external POST: the ERPNext existence check for `request_no` is the
`existsAlready` argument, the per-employee conflict query the `conflict`
argument. -/
def create_ot_registration (existsAlready : Bool)
    (conflict : OTDetailRow → Bool) (records : List OTRecord) :
    CreateOutcome :=
  if existsAlready then .skippedExists
  else if (buildRows conflict records).1.isEmpty &&
      !(buildRows conflict records).2.isEmpty then
    .skippedAllConflict (buildRows conflict records).2
  else if (buildRows conflict records).1.isEmpty then .failedNoValid
  else .submitted (buildRows conflict records).1

/-- Specification-side restatement of per-row filtering: the valid rows
whose conflict check is negative, in input order. -/
def survivingRows (conflict : OTDetailRow → Bool) (records : List OTRecord) :
    List OTDetailRow :=
  records.filterMap fun r =>
    match rowData r with
    | none => none
    | some row => if conflict row then none else some row

/-- Specification-side restatement of per-row filtering: the valid rows
whose conflict check is positive, in input order. -/
def conflictedRows (conflict : OTDetailRow → Bool) (records : List OTRecord) :
    List OTDetailRow :=
  records.filterMap fun r =>
    match rowData r with
    | none => none
    | some row => if conflict row then some row else none

/-- Sample conflict oracle for concrete evaluation: only employee `E2`
already has a downstream registration. -/
def sampleConflict (row : OTDetailRow) : Bool :=
  row.employee == "E2"

/-- Sample request with three employees on the same date and time slot. -/
def sampleOTRecords : List OTRecord :=
  [⟨1, some "2025-01-10", some "E1", some "17:00", some "19:00",
    some "R1", some "2025-01-09"⟩,
   ⟨2, some "2025-01-10", some "E2", some "17:00", some "19:00",
    some "R1", some "2025-01-09"⟩,
   ⟨3, some "2025-01-10", some "E3", some "17:00", some "19:00",
    some "R1", some "2025-01-09"⟩]

/-- Invariant of one entry of the `unique_records` map after processing the
events `pr`: the stored record carries its own key, has all key fields, came
from the input, and has the minimal `_id` among all valid input events with
that key. -/
def EntryOk (pr : List OTRecord) (e : OTKey × OTRecord) : Prop :=
  recordKey e.2 = e.1 ∧ hasKeyFields e.2 = true ∧ e.2 ∈ pr ∧
    ∀ r' ∈ pr, hasKeyFields r' = true → recordKey r' = e.1 →
      e.2.mongoId ≤ r'.mongoId

/-- Invariant of the whole `unique_records` map after processing `pr`:
every entry is good, keys are distinct, every valid processed event has an
entry under its key, and the map is no longer than the processed input. -/
def MapOk (pr : List OTRecord) (m : List (OTKey × OTRecord)) : Prop :=
  (∀ e ∈ m, EntryOk pr e) ∧ (m.map Prod.fst).Nodup ∧
    (∀ r' ∈ pr, hasKeyFields r' = true → recordKey r' ∈ m.map Prod.fst) ∧
    m.length ≤ pr.length

/-- One HR employee row as consumed by the cleanup engine
(02.clean_data_employee_left.py): `relieving_date` is the parsed date as an
absolute day ordinal, `none` when missing or unparseable. -/
structure EmployeeData where
  employee_id : String
  employee : String
  employee_name : String
  attendance_device_id : String
  relieving_date : Option Int
deriving DecidableEq, Repr

/-- One user record of a terminal's user table; only the identity key and
whether any fingerprint templates are stored matter to the claims. -/
structure DeviceUser where
  user_id : String
  hasTemplates : Bool
deriving DecidableEq, Repr

/-- One terminal: static identity and failure behavior
(`reachable` = `check_device_connection`, `connectOk` = truthiness of
`zk.connect()`, `getUsersOk` = whether `conn.get_users()` succeeds; a
failure there propagates to the outer `except` and yields an error result),
plus the mutable user table. -/
structure DeviceSim where
  device_id : String
  reachable : Bool
  connectOk : Bool
  getUsersOk : Bool
  users : List DeviceUser
deriving DecidableEq, Repr

/-- Per-cycle configuration snapshot: `today`, the
`CLEAR_LEFT_USER_TEMPLATES_RELIEVING_DELAY_DAYS` delay and the
`ENABLE_DELETE_LEFT_USER_ON_DEVICES_AFTER_RELIEVING_DAYS` threshold. -/
structure CleanCfg where
  today : Int
  delayDays : Int
  deleteAfterDays : Int
deriving DecidableEq, Repr

/-- The device-side purge decision of
`clear_employee_templates_from_device` (lines 436-448): permanent deletion
only when the feature is enabled, the relieving date parses, and
`days_since_relieving > delete_after_days`; any parse failure leaves the
flag `False`. -/
def shouldPermanentlyDelete (cfg : CleanCfg) (relieving : Option Int) : Bool :=
  if cfg.deleteAfterDays > 0 then
    match relieving with
    | some r => decide (cfg.today - r > cfg.deleteAfterDays)
    | none => false
  else false

/-- The action recorded when the user is not found on a device
(lines 479-496): derived from the relieving date when deletion is enabled,
`"cleared"` as the default in every fallback branch. -/
def notFoundAction (cfg : CleanCfg) (relieving : Option Int) : String :=
  if cfg.deleteAfterDays > 0 then
    match relieving with
    | some r =>
      if cfg.today - r > cfg.deleteAfterDays then "deleted" else "cleared"
    | none => "cleared"
  else "cleared"

/-- The per-device result dict returned by
`clear_employee_templates_from_device` (fields used by the parent). -/
structure DeviceResult where
  device_id : String
  success : Bool
  cleared_count : Nat
  deleted_count : Nat
  action_type : Option String
deriving DecidableEq, Repr

/-- State of the per-employee loop inside one device session, extended
with the count of mutating protocol calls (`delete_user` / `set_user`)
issued so far. -/
structure DeviceLoopState where
  users : List DeviceUser
  cleared_count : Nat
  deleted_count : Nat
  action_type : Option String
  mutations : Nat
deriving DecidableEq, Repr

/-- Membership test in a user table (`attendance_device_id in
existing_user_ids`). -/
def userFound (users : List DeviceUser) (uid : String) : Bool :=
  users.any (fun u => u.user_id == uid)

/-- Effect of `conn.delete_user(user_id=uid)` on the user table. -/
def removeUser (users : List DeviceUser) (uid : String) : List DeviceUser :=
  users.filter (fun u => u.user_id != uid)

/-- The per-employee loop body of `clear_employee_templates_from_device`
(lines 424-499): the found-check consults the `existing_user_ids` snapshot
taken at connect time; a found user is either permanently deleted
(priority 1) or deleted and recreated without templates (priority 2); a
missing user only sets the expected action for tracking. -/
def processEmployeeOnDevice (cfg : CleanCfg) (snapshot : List DeviceUser)
    (st : DeviceLoopState) (emp : EmployeeData) : DeviceLoopState :=
  if userFound snapshot emp.attendance_device_id then
    if shouldPermanentlyDelete cfg emp.relieving_date then
      { users := removeUser st.users emp.attendance_device_id,
        cleared_count := st.cleared_count,
        deleted_count := st.deleted_count + 1,
        action_type := some "deleted",
        mutations := st.mutations + 1 }
    else
      { users := removeUser st.users emp.attendance_device_id ++
          [⟨emp.attendance_device_id, false⟩],
        cleared_count := st.cleared_count + 1,
        deleted_count := st.deleted_count,
        action_type := some "cleared",
        mutations := st.mutations + 2 }
  else
    { st with action_type := some (notFoundAction cfg emp.relieving_date) }

/-- Embeds `CleanDataEmployeeLeft.clear_employee_templates_from_device`
(02.clean_data_employee_left.py, lines 351-536), embedded as a pure
function of the device state: returns the result dict, the new device
state, and the number of mutating protocol calls issued. Unreachable
device, failed connect, and a `get_users` error all return a failure
result without touching the device. -/
def clear_employee_templates_from_device (cfg : CleanCfg) (dev : DeviceSim)
    (emps : List EmployeeData) : DeviceResult × DeviceSim × Nat :=
  if !dev.reachable then
    (⟨dev.device_id, false, 0, 0, none⟩, dev, 0)
  else if !dev.connectOk then
    (⟨dev.device_id, false, 0, 0, none⟩, dev, 0)
  else if !dev.getUsersOk then
    (⟨dev.device_id, false, 0, 0, none⟩, dev, 0)
  else
    let final := emps.foldl (processEmployeeOnDevice cfg dev.users)
      ⟨dev.users, 0, 0, none, 0⟩
    (⟨dev.device_id, true, final.cleared_count, final.deleted_count,
      final.action_type⟩,
     { dev with users := final.users }, final.mutations)

/-- One tracking record (value of the `cleared` / `deleted` maps). -/
structure TrackRecord where
  employee : String
  action : String
deriving DecidableEq, Repr

/-- The tracking store state: the two maps of
`processed_left_employees.json`, keyed by `employee_id`. -/
structure Tracking where
  cleared : List (String × TrackRecord)
  deleted : List (String × TrackRecord)
deriving DecidableEq, Repr

/-- Key update of one tracking map (`processed_data[...][employee_id] =
record`): replaces in place or appends. -/
def upsert (m : List (String × TrackRecord)) (k : String) (v : TrackRecord) :
    List (String × TrackRecord) :=
  if m.any (fun e => e.1 == k) then
    m.map (fun e => if e.1 == k then (k, v) else e)
  else m ++ [(k, v)]

/-- Embeds `CleanDataEmployeeLeft.add_processed_employee` (lines 202-227): writes
the record into the `cleared` or `deleted` map according to the action
type. -/
def add_processed_employee (emp : EmployeeData) (actionType : String)
    (t : Tracking) : Tracking :=
  let record0 : TrackRecord :=
    ⟨emp.employee,
     if actionType == "cleared" then "cleared_templates"
     else "permanently_deleted"⟩
  if actionType == "cleared" then
    { t with cleared := upsert t.cleared emp.employee_id record0 }
  else if actionType == "deleted" then
    { t with deleted := upsert t.deleted emp.employee_id record0 }
  else t

/-- Embeds `CleanDataEmployeeLeft.is_employee_processed` (lines 229-245) and
the `processed_employee_ids` union used by the selection filter
(line 261): the employee id is a key of either map. -/
def is_employee_processed (t : Tracking) (eid : String) : Bool :=
  t.cleared.any (fun e => e.1 == eid) || t.deleted.any (fun e => e.1 == eid)

/-- Embeds `CleanDataEmployeeLeft.get_left_employees_for_cleanup`
(lines 246-327): skip employees already tracked, skip a missing or
unparseable relieving date, keep those the classifier marks for purge or
template clearing, in input order. -/
def get_left_employees_for_cleanup (cfg : CleanCfg)
    (allLeft : List EmployeeData) (t : Tracking) : List EmployeeData :=
  allLeft.filter fun emp =>
    !(is_employee_processed t emp.employee_id) &&
      decide (classify emp.relieving_date cfg.today cfg.delayDays
        cfg.deleteAfterDays ≠ .noAction)

/-- Fold state over the device fleet for one employee
(`device_results` accumulation in `clean_left_employee_complete`,
lines 584-620). -/
structure FleetState where
  results : List DeviceResult
  devices : List DeviceSim
  mutations : Nat
deriving DecidableEq, Repr

/-- The sequential per-device loop of `clean_left_employee_complete`
(lines 588-618) for a single employee. -/
def runDevices (cfg : CleanCfg) (emp : EmployeeData)
    (devices : List DeviceSim) : FleetState :=
  devices.foldl
    (fun st dev =>
      { results := st.results ++
          [(clear_employee_templates_from_device cfg dev [emp]).1],
        devices := st.devices ++
          [(clear_employee_templates_from_device cfg dev [emp]).2.1],
        mutations := st.mutations +
          (clear_employee_templates_from_device cfg dev [emp]).2.2 })
    ⟨[], [], 0⟩

/-- Computes `final_action_type`: the first non-`None` action type over the device
results, in device order (lines 637-641). -/
def firstActionType (results : List DeviceResult) : Option String :=
  results.findSome? (fun r => r.action_type)

/-- Outcome of cleaning one employee: per-device results, new fleet state,
new tracking state, number of tracking-file writes performed, and total
device mutations. -/
structure CleanOutcome where
  results : List DeviceResult
  devices : List DeviceSim
  tracking : Tracking
  writes : Nat
  mutations : Nat
deriving DecidableEq, Repr

/-- Embeds `CleanDataEmployeeLeft.clean_left_employee_complete` (lines 538-664):
run every configured device sequentially, then write the tracking file at
most once: only when some device succeeded (`device_success or any
success`), with the first reported action type, falling back to
`"cleared"` when no device reported one and none mutated. -/
def clean_left_employee_complete (cfg : CleanCfg) (devices : List DeviceSim)
    (emp : EmployeeData) (t : Tracking) : CleanOutcome :=
  let fs := runDevices cfg emp devices
  let totalCleared := (fs.results.map (fun r => r.cleared_count)).sum
  let totalDeleted := (fs.results.map (fun r => r.deleted_count)).sum
  let deviceSuccess : Bool :=
    decide (totalCleared > 0) || decide (totalDeleted > 0)
  let anySuccess : Bool := fs.results.any (fun r => r.success)
  if deviceSuccess || (!deviceSuccess && anySuccess) then
    match firstActionType fs.results with
    | some a =>
      ⟨fs.results, fs.devices, add_processed_employee emp a t, 1,
       fs.mutations⟩
    | none =>
      if !deviceSuccess then
        ⟨fs.results, fs.devices, add_processed_employee emp "cleared" t, 1,
         fs.mutations⟩
      else ⟨fs.results, fs.devices, t, 0, fs.mutations⟩
  else ⟨fs.results, fs.devices, t, 0, fs.mutations⟩

/-- A device session is opened (a successful `zk.connect()`) exactly on
reachable devices whose connect succeeds; one entry `(employee_id,
device_id)` per opened session for one employee. -/
def sessionsFor (devices : List DeviceSim) (emp : EmployeeData) :
    List (String × String) :=
  (devices.filter (fun d => d.reachable && d.connectOk)).map
    (fun d => (emp.employee_id, d.device_id))

/-- Outcome of one whole cleanup cycle. -/
structure CycleOutcome where
  devices : List DeviceSim
  tracking : Tracking
  mutations : Nat
  sessions : List (String × String)
deriving DecidableEq, Repr

/-- One iteration of the per-employee loop of `run_cleanup`
(lines 706-712): clean the employee against the current fleet and tracking
state, accumulating mutations and opened sessions. -/
def cycleStep (cfg : CleanCfg) (o : CycleOutcome) (emp : EmployeeData) :
    CycleOutcome :=
  { devices := (clean_left_employee_complete cfg o.devices emp o.tracking).devices,
    tracking := (clean_left_employee_complete cfg o.devices emp o.tracking).tracking,
    mutations := o.mutations +
      (clean_left_employee_complete cfg o.devices emp o.tracking).mutations,
    sessions := o.sessions ++ sessionsFor o.devices emp }

/-- Embeds `CleanDataEmployeeLeft.run_cleanup` (lines 666-728), from the
selection step onward: select the ready employees once, then clean each in
order, threading the device fleet and the tracking store. -/
def run_cleanup (cfg : CleanCfg) (allLeft : List EmployeeData)
    (devices : List DeviceSim) (t : Tracking) : CycleOutcome :=
  (get_left_employees_for_cleanup cfg allLeft t).foldl (cycleStep cfg)
    ⟨devices, t, 0, []⟩

/-- A terminal on which a session reaches the per-employee loop:
reachable, connect succeeded, user table read. -/
def goodFlags (dev : DeviceSim) : Bool :=
  dev.reachable && dev.connectOk && dev.getUsersOk

/-- Demo configuration for concrete evaluation: clear after 7 days,
permanent deletion disabled. -/
def demoCfg : CleanCfg := ⟨1000, 7, 0⟩

/-- Demo tracking state: employee `E9` is already recorded as cleared. -/
def demoTracking : Tracking :=
  ⟨[("E9", ⟨"TIQN-0009", "cleared_templates"⟩)], []⟩

/-- Demo HR snapshot: the tracked employee `E9` and a fresh one `E1`, both
past the clear delay. -/
def demoEmployees : List EmployeeData :=
  [⟨"E9", "TIQN-0009", "Tracked Employee", "9", some 900⟩,
   ⟨"E1", "TIQN-0001", "Fresh Employee", "1", some 900⟩]

/-- Demo fleet: one healthy terminal holding both users. -/
def demoDevices : List DeviceSim :=
  [⟨"machine_1", true, true, true, [⟨"1", true⟩, ⟨"9", true⟩]⟩]

/-- Filesystem view of the tracking file and its `.tmp` sibling; file
contents are modelled as tracking states (the JSON serialization written by
`json.dump` is injective on them), `none` meaning the file is absent. -/
structure TrackFS where
  canonical : Option Tracking
  temp : Option Tracking
deriving DecidableEq, Repr

/-- The two filesystem effects of
`CleanDataEmployeeLeft.save_processed_employees`
(02.clean_data_employee_left.py, lines 184-189): the `json.dump` of the
full new state into the temporary file, then the `os.replace` of the
temporary file onto the canonical path. -/
inductive SaveStep where
  | writeTemp
  | replace
deriving DecidableEq, Repr

/-- Effect of one save step on the filesystem. `os.replace` atomically
moves the temporary file onto the canonical path. -/
def applySaveStep (data : Tracking) (fs : TrackFS) : SaveStep → TrackFS
  | .writeTemp => { fs with temp := some data }
  | .replace => { canonical := fs.temp, temp := none }

/-- The ordered effect sequence of one `save_processed_employees` call. -/
def saveSteps : List SaveStep := [.writeTemp, .replace]

/-- Embeds `CleanDataEmployeeLeft.save_processed_employees` (lines 164-200): the
full effect sequence applied to the filesystem. -/
def save_processed_employees (data : Tracking) (fs : TrackFS) : TrackFS :=
  saveSteps.foldl (applySaveStep data) fs

/-- A crash after the first `n` effects of a save: only a prefix of the
effect sequence reaches disk. -/
def saveCrashAt (data : Tracking) (fs : TrackFS) (n : Nat) : TrackFS :=
  (saveSteps.take n).foldl (applySaveStep data) fs

/-- Outcome of one read attempt of the tracking file inside the retry loop
of `load_processed_employees` (lines 131-160): empty content, a parsed
JSON object (whose `cleared` / `deleted` keys may each be missing), a
`JSONDecodeError`, or any other exception. -/
inductive ReadAttempt where
  | emptyContent
  | parsed (cleared : Option (List (String × TrackRecord)))
      (deleted : Option (List (String × TrackRecord)))
  | parseError
  | otherError
deriving DecidableEq, Repr

/-- The ensure-structure step of `load_processed_employees`
(lines 143-147): missing `cleared` / `deleted` keys are filled with empty
maps. -/
def ensureStructure (cleared deleted : Option (List (String × TrackRecord))) :
    Tracking :=
  ⟨cleared.getD [], deleted.getD []⟩

/-- The retry loop of `load_processed_employees` (lines 130-162), over the
outcomes of the successive read attempts (the source performs at most
`max_retries = 3`): empty content and non-parse errors return the empty
state at once, a parse error retries unless it was the last attempt. -/
def loadLoop : List ReadAttempt → Tracking
  | [] => ⟨[], []⟩
  | a :: rest =>
    match a with
    | .emptyContent => ⟨[], []⟩
    | .parsed c d => ensureStructure c d
    | .otherError => ⟨[], []⟩
    | .parseError =>
      match rest with
      | [] => ⟨[], []⟩
      | _ :: _ => loadLoop rest

/-- Embeds `CleanDataEmployeeLeft.load_processed_employees` (lines 99-162): a
missing canonical file yields the empty state without reading; otherwise
the retry loop decides. Total by construction — every exception branch of
the source returns a value. -/
def load_processed_employees (fileExists : Bool)
    (attempts : List ReadAttempt) : Tracking :=
  if !fileExists then ⟨[], []⟩ else loadLoop attempts

/-- Observable behavior of one terminal during a session-scoped operation:
whether each protocol call succeeds (`false` = the call raises). -/
structure SessBehavior where
  reachable : Bool
  connectOk : Bool
  disableOk : Bool
  bodyOk : Bool
  enableOk : Bool
  disconnectOk : Bool
deriving DecidableEq, Repr

/-- Successful protocol calls observable on the device side. -/
inductive SessEvent where
  | connect
  | disable
  | enable
  | close
deriving DecidableEq, Repr

/-- The `finally` block shared by the session wrappers
(02.clean_data_employee_left.py lines 518-523, clean_data_employee_left.py
lines 183-188, sync_from_erpnext_to_device.py lines 211-216):
`try: conn.enable_device(); conn.disconnect(); except: pass` — when the
re-enable raises, the disconnect is never reached and both errors are
swallowed. -/
def finallyEvents (b : SessBehavior) : List SessEvent :=
  if b.enableOk then
    if b.disconnectOk then [.enable, .close] else [.enable]
  else []

/-- Trace of successful protocol calls of one session-scoped device
operation, paired with the success flag of the returned result dict: no
events before a connection exists; after a successful connect the
`finally` block runs on every exit path (disable failure and body failure
propagate to the outer `except` after the `finally`, producing a failure
result). -/
def deviceSessionTrace (b : SessBehavior) : List SessEvent × Bool :=
  if !b.reachable then ([], false)
  else if !b.connectOk then ([], false)
  else if !b.disableOk then ([.connect] ++ finallyEvents b, false)
  else if !b.bodyOk then ([.connect, .disable] ++ finallyEvents b, false)
  else ([.connect, .disable] ++ finallyEvents b, true)

/-- C1: for a parseable relieving date, when `purgeAfterDays > 0` and
`today - relieving_date > purgeAfterDays`, the classification is `Purge`
and never `ClearTemplates`, for every value of `clearDelayDays`: the purge
condition is evaluated before the clear-templates condition. -/
theorem classify_purge_precedence (relieving today delayDays deleteAfterDays : Int)
    (hEnabled : deleteAfterDays > 0)
    (hOld : today - relieving > deleteAfterDays) :
    classify (some relieving) today delayDays deleteAfterDays = .purge ∧
    classify (some relieving) today delayDays deleteAfterDays ≠ .clearTemplates ∧
    shouldPermanentlyDelete ⟨today, delayDays, deleteAfterDays⟩
      (some relieving) = true := by
  have h : classify (some relieving) today delayDays deleteAfterDays = .purge := by
    unfold classify
    simp only [if_pos (And.intro hEnabled hOld)]
  refine ⟨h, by rw [h]; exact fun hc => LifecycleAction.noConfusion hc, ?_⟩
  unfold shouldPermanentlyDelete
  rw [if_pos hEnabled]
  simpa using hOld

/-- Witness for `classify_purge_precedence`: an employee relieved 1500 days
ago, purge threshold 1400, clear delay 7. -/
theorem classify_purge_precedence_witness :
    classify (some 0) 1500 7 1400 = .purge ∧
    classify (some 0) 1500 7 1400 ≠ .clearTemplates ∧
    shouldPermanentlyDelete ⟨1500, 7, 1400⟩ (some 0) = true :=
  classify_purge_precedence 0 1500 7 1400 (by decide) (by decide)

/-- C9: the bypass decision returns `True` together with a matching window
exactly when the current time lies inside some configured window, where a
same-day window is inclusive at both ends and a window with
`start > end` wraps past midnight; otherwise it returns `False` and no
window. -/
theorem bypass_decision_correct (periods : List BypassPeriod) (t : Nat) :
    ((is_in_bypass_period periods t).1 = true ↔
      ∃ p ∈ periods,
        (if p.start ≤ p.endTime then p.start ≤ t ∧ t ≤ p.endTime
         else t ≥ p.start ∨ t ≤ p.endTime)) ∧
    ((is_in_bypass_period periods t).1 = true →
      ∃ p, (is_in_bypass_period periods t).2 = some p ∧ p ∈ periods ∧
        (if p.start ≤ p.endTime then p.start ≤ t ∧ t ≤ p.endTime
         else t ≥ p.start ∨ t ≤ p.endTime)) ∧
    ((is_in_bypass_period periods t).1 = false →
      (is_in_bypass_period periods t).2 = none) := by
  induction periods with
  | nil =>
    refine ⟨?_, ?_, ?_⟩
    · simp [is_in_bypass_period]
    · simp [is_in_bypass_period]
    · simp [is_in_bypass_period]
  | cons p rest ih =>
    by_cases h : periodContains p t = true
    · have hc : (if p.start ≤ p.endTime then p.start ≤ t ∧ t ≤ p.endTime
         else t ≥ p.start ∨ t ≤ p.endTime) := by
        unfold periodContains at h
        by_cases hse : p.start ≤ p.endTime
        · rw [if_pos hse] at h ⊢; exact of_decide_eq_true h
        · rw [if_neg hse] at h ⊢; exact of_decide_eq_true h
      refine ⟨?_, ?_, ?_⟩
      · simp only [is_in_bypass_period, if_pos h]
        exact ⟨fun _ => ⟨p, List.mem_cons_self p rest, hc⟩, fun _ => by trivial⟩
      · simp only [is_in_bypass_period, if_pos h]
        exact fun _ => ⟨p, rfl, List.mem_cons_self p rest, hc⟩
      · simp only [is_in_bypass_period, if_pos h]
        intro hfalse
        exact absurd hfalse (by simp)
    · have hnc : ¬ (if p.start ≤ p.endTime then p.start ≤ t ∧ t ≤ p.endTime
         else t ≥ p.start ∨ t ≤ p.endTime) := by
        unfold periodContains at h
        by_cases hse : p.start ≤ p.endTime
        · rw [if_pos hse] at h ⊢
          intro hcontra
          exact h (decide_eq_true hcontra)
        · rw [if_neg hse] at h ⊢
          intro hcontra
          exact h (decide_eq_true hcontra)
      refine ⟨?_, ?_, ?_⟩
      · simp only [is_in_bypass_period, if_neg h]
        constructor
        · intro htrue
          obtain ⟨q, hq, hqc⟩ := ih.1.mp htrue
          exact ⟨q, List.mem_cons_of_mem p hq, hqc⟩
        · intro ⟨q, hq, hqc⟩
          rcases List.mem_cons.mp hq with hqp | hqr
          · exact absurd (hqp ▸ hqc) hnc
          · exact ih.1.mpr ⟨q, hqr, hqc⟩
      · simp only [is_in_bypass_period, if_neg h]
        intro htrue
        obtain ⟨q, hq2, hqmem, hqc⟩ := ih.2.1 htrue
        exact ⟨q, hq2, List.mem_cons_of_mem p hqmem, hqc⟩
      · simp only [is_in_bypass_period, if_neg h]
        exact ih.2.2

/-- Witness for `bypass_decision_correct`: a single morning-rush window
07:30-07:55 (450-475 minutes) and current time 07:40 (460 minutes). -/
theorem bypass_decision_correct_witness :
    (is_in_bypass_period [⟨450, 475, "Morning rush"⟩] 460).1 = true :=
  (bypass_decision_correct [⟨450, 475, "Morning rush"⟩] 460).1.mpr
    ⟨⟨450, 475, "Morning rush"⟩, List.mem_singleton.mpr rfl, by decide⟩

theorem updateUnique_not_mem (r : OTRecord) (m : List (OTKey × OTRecord))
    (h : recordKey r ∉ m.map Prod.fst) :
    updateUnique r m = (m ++ [(recordKey r, r)], false) := by
  induction m with
  | nil => rfl
  | cons e rest ih =>
    obtain ⟨k, v⟩ := e
    have hk : recordKey r ≠ k := by
      intro hc
      exact h (by simp [hc])
    have hrest : recordKey r ∉ rest.map Prod.fst := by
      intro hc
      exact h (by simp [hc])
    simp only [updateUnique, if_neg hk, ih hrest, List.cons_append]

theorem mem_keys_split (k : OTKey) (m : List (OTKey × OTRecord))
    (h : k ∈ m.map Prod.fst) :
    ∃ m1 e m2, m = m1 ++ e :: m2 ∧ e.1 = k ∧ k ∉ m1.map Prod.fst := by
  induction m with
  | nil => simp at h
  | cons e rest ih =>
    by_cases hek : e.1 = k
    · exact ⟨[], e, rest, by simp, hek, by simp⟩
    · have : k ∈ rest.map Prod.fst := by
        rcases List.mem_map.mp h with ⟨e', he', hk'⟩
        rcases List.mem_cons.mp he' with rfl | he''
        · exact absurd hk' hek
        · exact List.mem_map.mpr ⟨e', he'', hk'⟩
      obtain ⟨m1, e', m2, hm, he1, hnm⟩ := ih this
      refine ⟨e :: m1, e', m2, by rw [hm]; rfl, he1, ?_⟩
      intro hc
      simp only [List.map_cons, List.mem_cons] at hc
      rcases hc with hc' | hc'
      · exact hek hc'.symm
      · exact hnm hc'

theorem updateUnique_found (r : OTRecord) (m1 m2 : List (OTKey × OTRecord))
    (e : OTKey × OTRecord) (he : e.1 = recordKey r)
    (hm1 : recordKey r ∉ m1.map Prod.fst) :
    updateUnique r (m1 ++ e :: m2) =
      (m1 ++ (if r.mongoId < e.2.mongoId then (e.1, r) else e) :: m2, true) := by
  induction m1 with
  | nil =>
    obtain ⟨k, v⟩ := e
    simp only [List.nil_append]
    simp only [updateUnique, if_pos (show recordKey r = k from he.symm)]
    by_cases hlt : r.mongoId < v.mongoId
    · simp [if_pos hlt]
    · simp [if_neg hlt]
  | cons e0 rest ih =>
    obtain ⟨k0, v0⟩ := e0
    have hk0 : recordKey r ≠ k0 := by
      intro hc
      exact hm1 (by simp [hc])
    have hrest : recordKey r ∉ rest.map Prod.fst := by
      intro hc
      exact hm1 (by simp [hc])
    have hstep : updateUnique r ((k0, v0) :: (rest ++ e :: m2)) =
        ((k0, v0) :: (updateUnique r (rest ++ e :: m2)).1,
         (updateUnique r (rest ++ e :: m2)).2) := by
      simp only [updateUnique, if_neg hk0]
    rw [List.cons_append, hstep, ih hrest]
    rfl

theorem EntryOk_append (pr : List OTRecord) (r : OTRecord)
    (e : OTKey × OTRecord) (h : EntryOk pr e)
    (hmin : hasKeyFields r = true → recordKey r = e.1 →
      e.2.mongoId ≤ r.mongoId) :
    EntryOk (pr ++ [r]) e := by
  obtain ⟨h1, h2, h3, h4⟩ := h
  refine ⟨h1, h2, List.mem_append_left _ h3, ?_⟩
  intro r' hr' hv' hk'
  rcases List.mem_append.mp hr' with h' | h'
  · exact h4 r' h' hv' hk'
  · have : r' = r := List.mem_singleton.mp h'
    subst this
    exact hmin hv' hk'

theorem dedupStep_preserves (pr : List OTRecord)
    (m : List (OTKey × OTRecord)) (c : Nat) (r : OTRecord)
    (h : MapOk pr m) : MapOk (pr ++ [r]) (dedupStep (m, c) r).1 := by
  obtain ⟨hEnt, hNd, hCov, hLen⟩ := h
  by_cases hv : hasKeyFields r = true
  · by_cases hk : recordKey r ∈ m.map Prod.fst
    · -- key already present: in-place replacement, keys unchanged
      obtain ⟨m1, e, m2, hm, he1, hm1⟩ := mem_keys_split _ m hk
      subst hm
      have hstep : (dedupStep (m1 ++ e :: m2, c) r).1 =
          m1 ++ (if r.mongoId < e.2.mongoId then (e.1, r) else e) :: m2 := by
        simp only [dedupStep, if_pos hv, updateUnique_found r m1 m2 e he1 hm1]
      rw [hstep]
      set e' : OTKey × OTRecord :=
        if r.mongoId < e.2.mongoId then (e.1, r) else e with he'
      have he'1 : e'.1 = e.1 := by
        rw [he']
        by_cases hlt : r.mongoId < e.2.mongoId
        · rw [if_pos hlt]
        · rw [if_neg hlt]
      have hkeys : (m1 ++ e' :: m2).map Prod.fst =
          (m1 ++ e :: m2).map Prod.fst := by
        simp [he'1]
      have heOk : EntryOk pr e :=
        hEnt e (List.mem_append_right m1 (List.mem_cons_self e m2))
      have hm2keys : e.1 ∉ m2.map Prod.fst := by
        have := hNd
        simp only [List.map_append, List.map_cons] at this
        have := (List.nodup_append.mp this).2.1
        exact (List.nodup_cons.mp this).1
      refine ⟨?_, by rw [hkeys]; exact hNd, ?_, ?_⟩
      · intro e'' he''
        rcases List.mem_append.mp he'' with h1 | h2
        · -- entries before the hit: key differs from recordKey r
          refine EntryOk_append pr r e''
            (hEnt e'' (List.mem_append_left _ h1)) ?_
          intro _ hkey
          exact absurd (List.mem_map.mpr ⟨e'', h1, hkey.symm⟩) hm1
        · rcases List.mem_cons.mp h2 with rfl | h3
          · -- the replaced entry
            obtain ⟨g1, g2, g3, g4⟩ := id heOk
            rw [he']
            by_cases hlt : r.mongoId < e.2.mongoId
            · rw [if_pos hlt]
              refine ⟨he1.symm ▸ rfl, hv, List.mem_append_right _ (by simp), ?_⟩
              intro r' hr' hv' hk'
              rcases List.mem_append.mp hr' with h' | h'
              · exact le_of_lt (lt_of_lt_of_le hlt (g4 r' h' hv' hk'))
              · have : r' = r := List.mem_singleton.mp h'
                subst this
                exact Nat.le_refl _
            · rw [if_neg hlt]
              refine EntryOk_append pr r e heOk ?_
              intro _ _
              exact Nat.le_of_not_lt hlt
          · -- entries after the hit: keys are nodup, so key differs
            refine EntryOk_append pr r e''
              (hEnt e'' (List.mem_append_right _ (List.mem_cons_of_mem e h3)))
              ?_
            intro _ hkey
            have hke : e''.1 = e.1 := by rw [← hkey, he1]
            exact absurd (List.mem_map.mpr ⟨e'', h3, hke⟩) hm2keys
      · intro r' hr' hv'
        rw [hkeys]
        rcases List.mem_append.mp hr' with h' | h'
        · exact hCov r' h' hv'
        · have : r' = r := List.mem_singleton.mp h'
          subst this
          exact List.mem_map.mpr
            ⟨e, List.mem_append_right m1 (List.mem_cons_self e m2), he1⟩
      · have : (m1 ++ e' :: m2).length = (m1 ++ e :: m2).length := by simp
        rw [this]
        calc (m1 ++ e :: m2).length ≤ pr.length := hLen
          _ ≤ (pr ++ [r]).length := by simp
    · -- fresh key: appended at the end of the map
      have hstep : (dedupStep (m, c) r).1 = m ++ [(recordKey r, r)] := by
        simp only [dedupStep, if_pos hv, updateUnique_not_mem r m hk]
      rw [hstep]
      refine ⟨?_, ?_, ?_, ?_⟩
      · intro e'' he''
        rcases List.mem_append.mp he'' with h1 | h2
        · refine EntryOk_append pr r e'' (hEnt e'' h1) ?_
          intro _ hkey
          exact absurd (List.mem_map.mpr ⟨e'', h1, hkey.symm⟩) hk
        · have : e'' = (recordKey r, r) := List.mem_singleton.mp h2
          subst this
          refine ⟨rfl, hv, List.mem_append_right _ (by simp), ?_⟩
          intro r' hr' hv' hk'
          rcases List.mem_append.mp hr' with h' | h'
          · have hkr : recordKey r' = recordKey r := hk'
            exact absurd (hkr ▸ hCov r' h' hv') hk
          · have : r' = r := List.mem_singleton.mp h'
            subst this
            exact Nat.le_refl _
      · rw [List.map_append]
        refine List.nodup_append.mpr ⟨hNd, by simp, ?_⟩
        intro k hk1 hk2
        simp only [List.map_cons, List.map_nil, List.mem_singleton] at hk2
        exact hk (hk2 ▸ hk1)
      · intro r' hr' hv'
        rw [List.map_append]
        rcases List.mem_append.mp hr' with h' | h'
        · exact List.mem_append_left _ (hCov r' h' hv')
        · have : r' = r := List.mem_singleton.mp h'
          subst this
          exact List.mem_append_right _ (by simp)
      · simp only [List.length_append, List.length_cons, List.length_nil]
        omega
  · -- record missing a key field: skipped entirely
    have hv' : hasKeyFields r = false := by
      cases hfl : hasKeyFields r
      · rfl
      · exact absurd hfl hv
    have hstep : (dedupStep (m, c) r).1 = m := by
      simp only [dedupStep, if_neg hv]
    rw [hstep]
    refine ⟨?_, hNd, ?_, ?_⟩
    · intro e'' he''
      refine EntryOk_append pr r e'' (hEnt e'' he'') ?_
      intro hc _
      exact absurd hc hv
    · intro r' hr' hvr'
      rcases List.mem_append.mp hr' with h' | h'
      · exact hCov r' h' hvr'
      · have : r' = r := List.mem_singleton.mp h'
        subst this
        exact absurd hvr' hv
    · calc m.length ≤ pr.length := hLen
        _ ≤ (pr ++ [r]).length := by simp

theorem dedupFold_ok (rs : List OTRecord) :
    ∀ (pr : List OTRecord) (st : List (OTKey × OTRecord) × Nat),
      MapOk pr st.1 → MapOk (pr ++ rs) (rs.foldl dedupStep st).1 := by
  induction rs with
  | nil =>
    intro pr st h
    simpa using h
  | cons r rest ih =>
    intro pr st h
    have h1 : MapOk (pr ++ [r]) (dedupStep st r).1 := by
      have := dedupStep_preserves pr st.1 st.2 r h
      simpa using this
    have := ih (pr ++ [r]) (dedupStep st r) h1
    simpa [List.append_assoc] using this

theorem dedupState_ok (rs : List OTRecord) : MapOk rs (dedupState rs).1 := by
  have h0 : MapOk [] (([] : List (OTKey × OTRecord)), 0).1 := by
    refine ⟨?_, ?_, ?_, ?_⟩ <;> simp
  have := dedupFold_ok rs [] ([], 0) h0
  simpa [dedupState] using this

/-- C2: for every input list and every pair of events in it sharing the key
`(date, employee_id, begin_time, end_time)`, deduplication keeps exactly one
event for that key, the kept event has an `_id` no larger than the lower of
the pair, and the event with the higher `_id` is discarded; on the concrete
pair with `_id`s 5 and 9 the output is exactly the record with `_id` 5
(see the witness). -/
theorem ot_dedup_keeps_lowest_id (rs : List OTRecord) (e1 e2 : OTRecord)
    (h1 : e1 ∈ rs) (h2 : e2 ∈ rs)
    (hv1 : hasKeyFields e1 = true) (hv2 : hasKeyFields e2 = true)
    (hk : recordKey e1 = recordKey e2) (hlt : e1.mongoId < e2.mongoId) :
    (deduplicate_records rs).countP
        (fun r => decide (recordKey r = recordKey e1)) = 1 ∧
    e2 ∉ deduplicate_records rs ∧
    ∃ r ∈ deduplicate_records rs,
      recordKey r = recordKey e1 ∧ r.mongoId ≤ e1.mongoId := by
  obtain ⟨hEnt, hNd, hCov, _⟩ := dedupState_ok rs
  set m := (dedupState rs).1 with hm
  have hkc : recordKey e1 ∈ m.map Prod.fst := hCov e1 h1 hv1
  obtain ⟨m1, e, m2, hsplit, he1, hm1⟩ := mem_keys_split _ m hkc
  have heOk : EntryOk rs e := by
    refine hEnt e ?_
    rw [hsplit]
    exact List.mem_append_right m1 (List.mem_cons_self e m2)
  have hm2keys : e.1 ∉ m2.map Prod.fst := by
    have hnd := hNd
    rw [hsplit] at hnd
    simp only [List.map_append, List.map_cons] at hnd
    have := (List.nodup_append.mp hnd).2.1
    exact (List.nodup_cons.mp this).1
  refine ⟨?_, ?_, ?_⟩
  · -- exactly one surviving record with this key
    have hdd : deduplicate_records rs = m.map Prod.snd := rfl
    rw [hdd, hsplit]
    simp only [List.map_append, List.map_cons, List.countP_append,
      List.countP_cons]
    have hz1 : (m1.map Prod.snd).countP
        (fun r => decide (recordKey r = recordKey e1)) = 0 := by
      rw [List.countP_eq_zero]
      intro v hvm
      rcases List.mem_map.mp hvm with ⟨e', he', rfl⟩
      simp only [decide_eq_true_eq]
      intro hkeq
      have hEe' : EntryOk rs e' := by
        refine hEnt e' ?_
        rw [hsplit]
        exact List.mem_append_left _ he'
      exact hm1 (List.mem_map.mpr ⟨e', he', by rw [← hEe'.1, hkeq]⟩)
    have hz2 : (m2.map Prod.snd).countP
        (fun r => decide (recordKey r = recordKey e1)) = 0 := by
      rw [List.countP_eq_zero]
      intro v hvm
      rcases List.mem_map.mp hvm with ⟨e', he', rfl⟩
      simp only [decide_eq_true_eq]
      intro hkeq
      refine hm2keys (List.mem_map.mpr ⟨e', he', ?_⟩)
      have hEe' : EntryOk rs e' := by
        refine hEnt e' ?_
        rw [hsplit]
        exact List.mem_append_right _ (List.mem_cons_of_mem e he')
      rw [← hEe'.1, hkeq, ← he1]
    have hmid : (decide (recordKey e.2 = recordKey e1)) = true := by
      simp only [decide_eq_true_eq]
      rw [heOk.1, he1]
    rw [hz1, hz2, hmid]
    simp
  · -- the higher-id event is discarded
    intro hmem
    rcases List.mem_map.mp hmem with ⟨e', he', hv⟩
    have hEe' : EntryOk rs e' := hEnt e' he'
    have hle : e'.2.mongoId ≤ e1.mongoId := by
      refine hEe'.2.2.2 e1 h1 hv1 ?_
      rw [hk, ← hv]
      exact hEe'.1
    rw [hv] at hle
    omega
  · -- a record with the key survives, with minimal id
    refine ⟨e.2, List.mem_map.mpr ⟨e, ?_, rfl⟩, ?_, ?_⟩
    · rw [← hm, hsplit]
      exact List.mem_append_right m1 (List.mem_cons_self e m2)
    · rw [heOk.1, he1]
    · refine heOk.2.2.2 e1 h1 hv1 ?_
      rw [he1]

/-- Witness for `ot_dedup_keeps_lowest_id`: two events with `_id`s 5 and 9
sharing the key `(20250101, E1, 17:00, 19:00)`; the output is exactly the
`_id` 5 record. -/
theorem ot_dedup_keeps_lowest_id_witness :
    ((deduplicate_records
        [⟨5, some "20250101", some "E1", some "17:00", some "19:00",
          some "R1", some "2025-01-01"⟩,
         ⟨9, some "20250101", some "E1", some "17:00", some "19:00",
          some "R1", some "2025-01-01"⟩]).countP
      (fun r => decide (recordKey r = recordKey
        ⟨5, some "20250101", some "E1", some "17:00", some "19:00",
         some "R1", some "2025-01-01"⟩)) = 1 ∧
     ⟨9, some "20250101", some "E1", some "17:00", some "19:00",
       some "R1", some "2025-01-01"⟩ ∉ deduplicate_records
        [⟨5, some "20250101", some "E1", some "17:00", some "19:00",
          some "R1", some "2025-01-01"⟩,
         ⟨9, some "20250101", some "E1", some "17:00", some "19:00",
          some "R1", some "2025-01-01"⟩] ∧
     ∃ r ∈ deduplicate_records
        [⟨5, some "20250101", some "E1", some "17:00", some "19:00",
          some "R1", some "2025-01-01"⟩,
         ⟨9, some "20250101", some "E1", some "17:00", some "19:00",
          some "R1", some "2025-01-01"⟩],
       recordKey r = recordKey
         ⟨5, some "20250101", some "E1", some "17:00", some "19:00",
          some "R1", some "2025-01-01"⟩ ∧ r.mongoId ≤ 5) ∧
    deduplicate_records
        [⟨5, some "20250101", some "E1", some "17:00", some "19:00",
          some "R1", some "2025-01-01"⟩,
         ⟨9, some "20250101", some "E1", some "17:00", some "19:00",
          some "R1", some "2025-01-01"⟩] =
      [⟨5, some "20250101", some "E1", some "17:00", some "19:00",
        some "R1", some "2025-01-01"⟩] :=
  ⟨ot_dedup_keeps_lowest_id _ _ _ (by simp) (by simp) (by decide) (by decide)
    (by decide) (by decide), by decide⟩

theorem dedupStep_skip (st : List (OTKey × OTRecord) × Nat) (r : OTRecord)
    (h : hasKeyFields r = false) : dedupStep st r = st := by
  simp only [dedupStep, h, Bool.false_eq_true, if_false]

theorem dedupFold_filter (rs : List OTRecord) :
    ∀ st : List (OTKey × OTRecord) × Nat,
      rs.foldl dedupStep st = (rs.filter hasKeyFields).foldl dedupStep st := by
  induction rs with
  | nil => intro st; rfl
  | cons r rest ih =>
    intro st
    cases hv : hasKeyFields r
    · rw [List.foldl_cons, dedupStep_skip st r hv, List.filter_cons_of_neg]
      · exact ih st
      · simp [hv]
    · rw [List.foldl_cons, List.filter_cons_of_pos (by simp [hv]),
        List.foldl_cons]
      exact ih (dedupStep st r)

theorem addToGroup_members (rq : String) (r : OTRecord) :
    ∀ (groups : List (String × List OTRecord)) (g : String × List OTRecord),
      g ∈ addToGroup groups rq r → ∀ x ∈ g.2,
        x = r ∨ ∃ g' ∈ groups, x ∈ g'.2 := by
  intro groups
  induction groups with
  | nil =>
    intro g hg x hx
    simp only [addToGroup, List.mem_singleton] at hg
    subst hg
    exact Or.inl (List.mem_singleton.mp hx)
  | cons g0 rest ih =>
    intro g hg x hx
    obtain ⟨k, rs⟩ := g0
    by_cases hk : k = rq
    · simp only [addToGroup, if_pos hk] at hg
      rcases List.mem_cons.mp hg with rfl | hgr
      · rcases List.mem_append.mp hx with h' | h'
        · exact Or.inr ⟨(k, rs), List.mem_cons_self _ _, h'⟩
        · exact Or.inl (List.mem_singleton.mp h')
      · exact Or.inr ⟨g, List.mem_cons_of_mem _ hgr, hx⟩
    · simp only [addToGroup, if_neg hk] at hg
      rcases List.mem_cons.mp hg with rfl | hgr
      · exact Or.inr ⟨(k, rs), List.mem_cons_self _ _, hx⟩
      · rcases ih g hgr x hx with h' | ⟨g', hg', hx'⟩
        · exact Or.inl h'
        · exact Or.inr ⟨g', List.mem_cons_of_mem _ hg', hx'⟩

theorem groupFold_members (src : List OTRecord) :
    ∀ (groups : List (String × List OTRecord)) (g : String × List OTRecord),
      g ∈ src.foldl
        (fun groups r =>
          match r.requestNo with
          | none => groups
          | some rq => if rq.isEmpty then groups else addToGroup groups rq r)
        groups →
      ∀ x ∈ g.2, (∃ g' ∈ groups, x ∈ g'.2) ∨ x ∈ src := by
  induction src with
  | nil =>
    intro groups g hg x hx
    exact Or.inl ⟨g, hg, hx⟩
  | cons r rest ih =>
    intro groups g hg x hx
    rw [List.foldl_cons] at hg
    rcases hrq : r.requestNo with _ | rq
    · simp only [hrq] at hg
      rcases ih groups g hg x hx with h' | h'
      · exact Or.inl h'
      · exact Or.inr (List.mem_cons_of_mem r h')
    · simp only [hrq] at hg
      by_cases hemp : rq.isEmpty
      · rw [if_pos hemp] at hg
        rcases ih groups g hg x hx with h' | h'
        · exact Or.inl h'
        · exact Or.inr (List.mem_cons_of_mem r h')
      · rw [if_neg hemp] at hg
        rcases ih (addToGroup groups rq r) g hg x hx with ⟨g', hg', hx'⟩ | h'
        · rcases addToGroup_members rq r groups g' hg' x hx' with h'' | h''
          · exact Or.inr (h'' ▸ List.mem_cons_self r rest)
          · exact Or.inl h''
        · exact Or.inr (List.mem_cons_of_mem r h')

/-- C10: events missing any of the four key fields (or carrying a falsy
value there) are silently dropped: every record surviving deduplication has
all four key fields, dropping such events up front changes neither the
deduplicated output nor the duplicate count, every record inside a grouped
registration has all four key fields, and the output never exceeds the
input in length. -/
theorem ot_dedup_drops_invalid (rs : List OTRecord) :
    (∀ r ∈ deduplicate_records rs, hasKeyFields r = true) ∧
    deduplicate_records rs = deduplicate_records (rs.filter hasKeyFields) ∧
    duplicateCount rs = duplicateCount (rs.filter hasKeyFields) ∧
    (∀ g ∈ group_records_by_request rs, ∀ r ∈ g.2, hasKeyFields r = true) ∧
    (deduplicate_records rs).length ≤ rs.length := by
  obtain ⟨hEnt, _, _, hLen⟩ := dedupState_ok rs
  have hvalid : ∀ r ∈ deduplicate_records rs, hasKeyFields r = true := by
    intro r hr
    rcases List.mem_map.mp hr with ⟨e, he, rfl⟩
    exact (hEnt e he).2.1
  refine ⟨hvalid, ?_, ?_, ?_, ?_⟩
  · unfold deduplicate_records dedupState
    rw [dedupFold_filter rs ([], 0)]
  · unfold duplicateCount dedupState
    rw [dedupFold_filter rs ([], 0)]
  · intro g hg r hr
    rcases groupFold_members (deduplicate_records rs) [] g hg r hr with
      ⟨g', hg', _⟩ | h'
    · exact absurd hg' (List.not_mem_nil g')
    · exact hvalid r h'
  · calc (deduplicate_records rs).length = (dedupState rs).1.length :=
        List.length_map _ _
      _ ≤ rs.length := hLen

/-- Witness for `ot_dedup_drops_invalid`: an input holding one valid event
and one event with a falsy (empty) `empId`; the invalid event is dropped
and only the valid one survives. -/
theorem ot_dedup_drops_invalid_witness :
    hasKeyFields
      ⟨1, some "20250101", some "E1", some "17:00", some "19:00",
       some "R1", none⟩ = true ∧
    deduplicate_records
      [⟨1, some "20250101", some "E1", some "17:00", some "19:00",
        some "R1", none⟩,
       ⟨2, some "20250101", some "", some "17:00", some "19:00",
        some "R1", none⟩] =
      [⟨1, some "20250101", some "E1", some "17:00", some "19:00",
        some "R1", none⟩] :=
  ⟨(ot_dedup_drops_invalid
      [⟨1, some "20250101", some "E1", some "17:00", some "19:00",
        some "R1", none⟩,
       ⟨2, some "20250101", some "", some "17:00", some "19:00",
        some "R1", none⟩]).1
    ⟨1, some "20250101", some "E1", some "17:00", some "19:00",
     some "R1", none⟩ (by decide), by decide⟩

theorem buildRows_eq (conflict : OTDetailRow → Bool) :
    ∀ (records : List OTRecord) (acc : List OTDetailRow × List OTDetailRow),
      records.foldl
        (fun acc r =>
          match rowData r with
          | none => acc
          | some row =>
            if conflict row then (acc.1, acc.2 ++ [row])
            else (acc.1 ++ [row], acc.2)) acc =
      (acc.1 ++ survivingRows conflict records,
       acc.2 ++ conflictedRows conflict records) := by
  intro records
  induction records with
  | nil =>
    intro acc
    simp [survivingRows, conflictedRows]
  | cons r rest ih =>
    intro acc
    rcases hr : rowData r with _ | row
    · simp only [List.foldl_cons, hr]
      rw [ih]
      simp [survivingRows, conflictedRows, List.filterMap_cons, hr]
    · by_cases hc : conflict row = true
      · simp only [List.foldl_cons, hr, if_pos hc]
        rw [ih]
        simp [survivingRows, conflictedRows, List.filterMap_cons, hr, hc]
      · simp only [List.foldl_cons, hr, if_neg hc]
        rw [ih]
        simp [survivingRows, conflictedRows, List.filterMap_cons, hr, hc]

theorem buildRows_spec (conflict : OTDetailRow → Bool)
    (records : List OTRecord) :
    buildRows conflict records =
      (survivingRows conflict records, conflictedRows conflict records) := by
  unfold buildRows
  rw [buildRows_eq]
  simp

/-- C5: the per-employee conflict check is applied to each detail row
individually: when at least one row survives, the registration is submitted
with exactly the surviving rows (conflicting rows excluded one by one);
when every valid row conflicts, the registration is not created and the
outcome is a skip, not a failure. -/
theorem ot_conflict_per_detail_row (conflict : OTDetailRow → Bool)
    (records : List OTRecord) :
    buildRows conflict records =
      (survivingRows conflict records, conflictedRows conflict records) ∧
    (survivingRows conflict records ≠ [] →
      create_ot_registration false conflict records =
        CreateOutcome.submitted (survivingRows conflict records) ∧
      (create_ot_registration false conflict records).isFailure = false) ∧
    (survivingRows conflict records = [] →
      conflictedRows conflict records ≠ [] →
      create_ot_registration false conflict records =
        CreateOutcome.skippedAllConflict (conflictedRows conflict records) ∧
      (create_ot_registration false conflict records).isSkip = true ∧
      (create_ot_registration false conflict records).isFailure = false) := by
  have hb := buildRows_spec conflict records
  refine ⟨hb, ?_, ?_⟩
  · intro hne
    have hie : (survivingRows conflict records).isEmpty = false := by
      cases hs : survivingRows conflict records
      · exact absurd hs hne
      · rfl
    constructor
    · simp [create_ot_registration, hb, hie]
    · simp [create_ot_registration, hb, hie, CreateOutcome.isFailure]
  · intro hs hc
    have hie : (survivingRows conflict records).isEmpty = true := by
      rw [hs]; rfl
    have hicf : (conflictedRows conflict records).isEmpty = false := by
      cases hcf : conflictedRows conflict records
      · exact absurd hcf hc
      · rfl
    refine ⟨?_, ?_, ?_⟩
    · simp [create_ot_registration, hb, hie, hicf]
    · simp [create_ot_registration, hb, hie, hicf, CreateOutcome.isSkip]
    · simp [create_ot_registration, hb, hie, hicf, CreateOutcome.isFailure]

/-- Witness for `ot_conflict_per_detail_row`: a request with three
employees of which exactly one (`E2`) conflicts is submitted with the two
surviving detail rows. -/
theorem ot_conflict_per_detail_row_witness :
    create_ot_registration false sampleConflict sampleOTRecords =
      CreateOutcome.submitted
        (survivingRows sampleConflict sampleOTRecords) ∧
    (create_ot_registration false sampleConflict sampleOTRecords).isFailure
      = false ∧
    survivingRows sampleConflict sampleOTRecords =
      [⟨"E1", "2025-01-10", "17:00:00", "19:00:00"⟩,
       ⟨"E3", "2025-01-10", "17:00:00", "19:00:00"⟩] :=
  ⟨((ot_conflict_per_detail_row sampleConflict sampleOTRecords).2.1
      (by decide)).1,
   ((ot_conflict_per_detail_row sampleConflict sampleOTRecords).2.1
      (by decide)).2,
   by decide⟩

theorem clear_bad_device (cfg : CleanCfg) (dev : DeviceSim)
    (emps : List EmployeeData) (h : goodFlags dev = false) :
    clear_employee_templates_from_device cfg dev emps =
      (⟨dev.device_id, false, 0, 0, none⟩, dev, 0) := by
  unfold goodFlags at h
  unfold clear_employee_templates_from_device
  cases hr : dev.reachable <;> cases hc : dev.connectOk <;>
    cases hg : dev.getUsersOk <;> simp_all

theorem clear_good_device (cfg : CleanCfg) (dev : DeviceSim)
    (emps : List EmployeeData) (h : goodFlags dev = true) :
    clear_employee_templates_from_device cfg dev emps =
      (⟨dev.device_id, true,
        (emps.foldl (processEmployeeOnDevice cfg dev.users)
          ⟨dev.users, 0, 0, none, 0⟩).cleared_count,
        (emps.foldl (processEmployeeOnDevice cfg dev.users)
          ⟨dev.users, 0, 0, none, 0⟩).deleted_count,
        (emps.foldl (processEmployeeOnDevice cfg dev.users)
          ⟨dev.users, 0, 0, none, 0⟩).action_type⟩,
       { dev with users :=
          (emps.foldl (processEmployeeOnDevice cfg dev.users)
            ⟨dev.users, 0, 0, none, 0⟩).users },
       (emps.foldl (processEmployeeOnDevice cfg dev.users)
          ⟨dev.users, 0, 0, none, 0⟩).mutations) := by
  unfold goodFlags at h
  unfold clear_employee_templates_from_device
  have hr : dev.reachable = true := by
    cases hx : dev.reachable <;> simp_all
  have hc : dev.connectOk = true := by
    cases hx : dev.connectOk <;> simp_all
  have hg : dev.getUsersOk = true := by
    cases hx : dev.getUsersOk <;> simp_all
  simp [hr, hc, hg]

theorem clear_success_eq_goodFlags (cfg : CleanCfg) (dev : DeviceSim)
    (emps : List EmployeeData) :
    (clear_employee_templates_from_device cfg dev emps).1.success =
      goodFlags dev := by
  cases h : goodFlags dev
  · rw [clear_bad_device cfg dev emps h]
  · rw [clear_good_device cfg dev emps h]

theorem clear_preserves_goodFlags (cfg : CleanCfg) (dev : DeviceSim)
    (emps : List EmployeeData) :
    goodFlags ((clear_employee_templates_from_device cfg dev emps).2.1) =
      goodFlags dev := by
  cases h : goodFlags dev
  · rw [clear_bad_device cfg dev emps h]
    exact h
  · rw [clear_good_device cfg dev emps h]
    unfold goodFlags at h ⊢
    simpa using h

theorem notFoundAction_cases (cfg : CleanCfg) (relieving : Option Int) :
    notFoundAction cfg relieving = "cleared" ∨
    notFoundAction cfg relieving = "deleted" := by
  unfold notFoundAction
  by_cases h : cfg.deleteAfterDays > 0
  · rw [if_pos h]
    rcases relieving with _ | r
    · exact Or.inl rfl
    · by_cases h2 : cfg.today - r > cfg.deleteAfterDays
      · exact Or.inr (by simp [h2])
      · exact Or.inl (by simp [h2])
  · rw [if_neg h]
    exact Or.inl rfl

theorem processEmployee_action_isSome (cfg : CleanCfg)
    (snapshot : List DeviceUser) (st : DeviceLoopState) (emp : EmployeeData) :
    ((processEmployeeOnDevice cfg snapshot st emp).action_type = some "cleared") ∨
    ((processEmployeeOnDevice cfg snapshot st emp).action_type = some "deleted") := by
  unfold processEmployeeOnDevice
  by_cases hf : userFound snapshot emp.attendance_device_id = true
  · rw [if_pos hf]
    by_cases hd : shouldPermanentlyDelete cfg emp.relieving_date = true
    · exact Or.inr (by rw [if_pos hd])
    · exact Or.inl (by rw [if_neg hd])
  · rw [if_neg hf]
    rcases notFoundAction_cases cfg emp.relieving_date with h | h
    · exact Or.inl (by simpa using h)
    · exact Or.inr (by simpa using h)

theorem clear_singleton_action (cfg : CleanCfg) (dev : DeviceSim)
    (emp : EmployeeData) (h : goodFlags dev = true) :
    (clear_employee_templates_from_device cfg dev [emp]).1.action_type =
      some "cleared" ∨
    (clear_employee_templates_from_device cfg dev [emp]).1.action_type =
      some "deleted" := by
  rw [clear_good_device cfg dev [emp] h]
  simpa using processEmployee_action_isSome cfg dev.users
    ⟨dev.users, 0, 0, none, 0⟩ emp

theorem runDevices_spec (cfg : CleanCfg) (emp : EmployeeData)
    (devices : List DeviceSim) :
    runDevices cfg emp devices =
      ⟨devices.map
        (fun d => (clear_employee_templates_from_device cfg d [emp]).1),
       devices.map
        (fun d => (clear_employee_templates_from_device cfg d [emp]).2.1),
       (devices.map
        (fun d => (clear_employee_templates_from_device cfg d [emp]).2.2)).sum⟩ := by
  have haux : ∀ (ds : List DeviceSim) (st : FleetState),
      ds.foldl
        (fun st dev =>
          { results := st.results ++
              [(clear_employee_templates_from_device cfg dev [emp]).1],
            devices := st.devices ++
              [(clear_employee_templates_from_device cfg dev [emp]).2.1],
            mutations := st.mutations +
              (clear_employee_templates_from_device cfg dev [emp]).2.2 }) st =
      ⟨st.results ++ ds.map
          (fun d => (clear_employee_templates_from_device cfg d [emp]).1),
       st.devices ++ ds.map
          (fun d => (clear_employee_templates_from_device cfg d [emp]).2.1),
       st.mutations + (ds.map
          (fun d => (clear_employee_templates_from_device cfg d [emp]).2.2)).sum⟩ := by
    intro ds
    induction ds with
    | nil => intro st; simp
    | cons d rest ih =>
      intro st
      rw [List.foldl_cons, ih]
      simp [List.append_assoc, Nat.add_assoc]
  unfold runDevices
  rw [haux]
  simp

theorem findSome?_mem_of_eq_some {α β : Type} (f : α → Option β) :
    ∀ (l : List α) (b : β), l.findSome? f = some b → ∃ a ∈ l, f a = some b := by
  intro l
  induction l with
  | nil =>
    intro b h
    simp [List.findSome?_nil] at h
  | cons x xs ih =>
    intro b h
    rw [List.findSome?_cons] at h
    cases hfx : f x with
    | none =>
      rw [hfx] at h
      obtain ⟨a, ha, hfa⟩ := ih b h
      exact ⟨a, List.mem_cons_of_mem x ha, hfa⟩
    | some v =>
      rw [hfx] at h
      simp only [] at h
      exact ⟨x, List.mem_cons_self x xs, by rw [hfx, h]⟩

theorem any_goodFlags_false (devices : List DeviceSim)
    (h : devices.any goodFlags = false) :
    ∀ d ∈ devices, goodFlags d = false := by
  intro d hd
  cases hg : goodFlags d
  · rfl
  · exact absurd (List.any_eq_true.mpr ⟨d, hd, hg⟩) (by rw [h]; simp)

theorem runDevices_results_any_success (cfg : CleanCfg) (emp : EmployeeData)
    (devices : List DeviceSim) :
    (runDevices cfg emp devices).results.any (fun r => r.success) =
      devices.any goodFlags := by
  have haux : ∀ ds : List DeviceSim,
      ((ds.map fun d => (clear_employee_templates_from_device cfg d [emp]).1).any
        fun r => r.success) = ds.any goodFlags := by
    intro ds
    induction ds with
    | nil => rfl
    | cons d rest ih =>
      simp only [List.map_cons, List.any_cons, ih,
        clear_success_eq_goodFlags]
  rw [runDevices_spec]
  exact haux devices

theorem any_goodFlags_map_clear (cfg : CleanCfg) (emp : EmployeeData)
    (devices : List DeviceSim) :
    ((devices.map fun d =>
      (clear_employee_templates_from_device cfg d [emp]).2.1).any goodFlags) =
      devices.any goodFlags := by
  induction devices with
  | nil => rfl
  | cons d rest ih =>
    simp only [List.map_cons, List.any_cons, ih, clear_preserves_goodFlags]

theorem clean_write_char (cfg : CleanCfg) (devices : List DeviceSim)
    (emp : EmployeeData) (t : Tracking) :
    (clean_left_employee_complete cfg devices emp t).writes =
      (if devices.any goodFlags then 1 else 0) ∧
    (devices.any goodFlags = true →
      ∃ a, (a = "cleared" ∨ a = "deleted") ∧
        firstActionType (runDevices cfg emp devices).results = some a ∧
        (clean_left_employee_complete cfg devices emp t).tracking =
          add_processed_employee emp a t) ∧
    (devices.any goodFlags = false →
      (clean_left_employee_complete cfg devices emp t).tracking = t ∧
      (clean_left_employee_complete cfg devices emp t).mutations = 0 ∧
      (clean_left_employee_complete cfg devices emp t).devices = devices) ∧
    (clean_left_employee_complete cfg devices emp t).results.length =
      devices.length ∧
    (clean_left_employee_complete cfg devices emp t).devices.any goodFlags =
      devices.any goodFlags := by
  have hres : (runDevices cfg emp devices).results =
      devices.map (fun d => (clear_employee_templates_from_device cfg d [emp]).1) := by
    rw [runDevices_spec]
  have hdevs : (runDevices cfg emp devices).devices =
      devices.map (fun d => (clear_employee_templates_from_device cfg d [emp]).2.1) := by
    rw [runDevices_spec]
  have hmut : (runDevices cfg emp devices).mutations =
      (devices.map (fun d => (clear_employee_templates_from_device cfg d [emp]).2.2)).sum := by
    rw [runDevices_spec]
  have hany := runDevices_results_any_success cfg emp devices
  have hcomp : (clean_left_employee_complete cfg devices emp t).results =
        (runDevices cfg emp devices).results ∧
      (clean_left_employee_complete cfg devices emp t).devices =
        (runDevices cfg emp devices).devices ∧
      (clean_left_employee_complete cfg devices emp t).mutations =
        (runDevices cfg emp devices).mutations := by
    simp only [clean_left_employee_complete]
    refine ⟨?_, ?_, ?_⟩ <;> (repeat' split) <;> rfl
  have hflagsAny : (clean_left_employee_complete cfg devices emp t).devices.any
      goodFlags = devices.any goodFlags := by
    rw [hcomp.2.1, hdevs, any_goodFlags_map_clear]
  have hlen : (clean_left_employee_complete cfg devices emp t).results.length =
      devices.length := by
    rw [hcomp.1, hres, List.length_map]
  cases hA : devices.any goodFlags
  · -- no device reaches its loop: nothing written, nothing mutated
    have hall := any_goodFlags_false devices hA
    have hmapfail : (runDevices cfg emp devices).results =
        devices.map (fun d =>
          (⟨d.device_id, false, 0, 0, none⟩ : DeviceResult)) := by
      rw [hres]
      refine List.map_congr_left ?_
      intro d hd
      rw [clear_bad_device cfg d [emp] (hall d hd)]
    have hc0 : (((runDevices cfg emp devices).results.map
        (fun r => r.cleared_count)).sum) = 0 := by
      rw [hmapfail, List.map_map]
      refine List.sum_eq_zero ?_
      intro x hx
      rcases List.mem_map.mp hx with ⟨d, _, rfl⟩
      rfl
    have hd0 : (((runDevices cfg emp devices).results.map
        (fun r => r.deleted_count)).sum) = 0 := by
      rw [hmapfail, List.map_map]
      refine List.sum_eq_zero ?_
      intro x hx
      rcases List.mem_map.mp hx with ⟨d, _, rfl⟩
      rfl
    have hany' : (runDevices cfg emp devices).results.any
        (fun r => r.success) = false := by rw [hany, hA]
    have hcase : clean_left_employee_complete cfg devices emp t =
        ⟨(runDevices cfg emp devices).results,
         (runDevices cfg emp devices).devices, t, 0,
         (runDevices cfg emp devices).mutations⟩ := by
      simp only [clean_left_employee_complete]
      rw [hc0, hd0, hany']
      simp
    have hm0 : (runDevices cfg emp devices).mutations = 0 := by
      rw [hmut]
      refine List.sum_eq_zero ?_
      intro x hx
      rcases List.mem_map.mp hx with ⟨d, hd, rfl⟩
      rw [clear_bad_device cfg d [emp] (hall d hd)]
    have hdevid : (runDevices cfg emp devices).devices = devices := by
      rw [hdevs]
      have : devices.map
          (fun d => (clear_employee_templates_from_device cfg d [emp]).2.1) =
          devices.map id := by
        refine List.map_congr_left ?_
        intro d hd
        rw [clear_bad_device cfg d [emp] (hall d hd)]
        rfl
      rw [this, List.map_id]
    refine ⟨by rw [hcase]; simp, ?_, ?_, hlen, by rw [hflagsAny]; exact hA⟩
    · intro hc
      exact absurd hc (by simp)
    · intro _
      rw [hcase]
      exact ⟨rfl, hm0, hdevid⟩
  · -- some device reaches its loop: exactly one tracking write
    obtain ⟨dgood, hdmem, hdgood⟩ := List.any_eq_true.mp hA
    have hfa : ∃ a, firstActionType (runDevices cfg emp devices).results =
        some a := by
      cases hf : firstActionType (runDevices cfg emp devices).results with
      | some a => exact ⟨a, rfl⟩
      | none =>
        exfalso
        have hnone : ∀ r ∈ (runDevices cfg emp devices).results,
            r.action_type = none := by
          intro r hr
          exact List.findSome?_eq_none_iff.mp hf r hr
        have hmemres : (clear_employee_templates_from_device cfg dgood
            [emp]).1 ∈ (runDevices cfg emp devices).results := by
          rw [hres]
          exact List.mem_map.mpr ⟨dgood, hdmem, rfl⟩
        rcases clear_singleton_action cfg dgood emp hdgood with h' | h' <;>
          rw [hnone _ hmemres] at h' <;> exact Option.noConfusion h'
    obtain ⟨a, hfa⟩ := hfa
    have haval : a = "cleared" ∨ a = "deleted" := by
      obtain ⟨r, hrmem, hract⟩ := findSome?_mem_of_eq_some _ _ a hfa
      rw [hres] at hrmem
      rcases List.mem_map.mp hrmem with ⟨d, hdm, rfl⟩
      cases hg : goodFlags d
      · rw [clear_bad_device cfg d [emp] hg] at hract
        exact Option.noConfusion hract
      · rcases clear_singleton_action cfg d emp hg with h' | h' <;>
          rw [h'] at hract
        · exact Or.inl (Option.some.inj hract).symm
        · exact Or.inr (Option.some.inj hract).symm
    have hany' : (runDevices cfg emp devices).results.any
        (fun r => r.success) = true := by rw [hany, hA]
    have hcase : clean_left_employee_complete cfg devices emp t =
        ⟨(runDevices cfg emp devices).results,
         (runDevices cfg emp devices).devices,
         add_processed_employee emp a t, 1,
         (runDevices cfg emp devices).mutations⟩ := by
      simp only [clean_left_employee_complete]
      rw [hany', hfa]
      cases hds : (decide ((((runDevices cfg emp devices).results.map
            (fun r => r.cleared_count)).sum) > 0) ||
          decide ((((runDevices cfg emp devices).results.map
            (fun r => r.deleted_count)).sum) > 0)) <;> simp
    refine ⟨by rw [hcase]; simp, ?_, ?_, hlen, by rw [hflagsAny]; exact hA⟩
    · intro _
      exact ⟨a, haval, hfa, by rw [hcase]⟩
    · intro hc
      exact absurd hc (by simp)

theorem any_upsert_self (m : List (String × TrackRecord)) (k : String)
    (v : TrackRecord) : (upsert m k v).any (fun e => e.1 == k) = true := by
  unfold upsert
  by_cases hm : m.any (fun e => e.1 == k) = true
  · rw [if_pos hm]
    obtain ⟨e0, he0, hk0⟩ := List.any_eq_true.mp hm
    refine List.any_eq_true.mpr ⟨(k, v), ?_, by simp⟩
    refine List.mem_map.mpr ⟨e0, he0, ?_⟩
    simp [hk0]
  · rw [if_neg hm]
    refine List.any_eq_true.mpr ⟨(k, v), List.mem_append_right _ (by simp), by simp⟩

theorem any_upsert_mono (m : List (String × TrackRecord)) (k : String)
    (v : TrackRecord) (eid : String)
    (h : m.any (fun e => e.1 == eid) = true) :
    (upsert m k v).any (fun e => e.1 == eid) = true := by
  unfold upsert
  by_cases hm : m.any (fun e => e.1 == k) = true
  · rw [if_pos hm]
    obtain ⟨e0, he0, hk0⟩ := List.any_eq_true.mp h
    by_cases hek : (e0.1 == k) = true
    · have h1 : e0.1 = k := eq_of_beq hek
      have h2 : e0.1 = eid := eq_of_beq hk0
      refine List.any_eq_true.mpr ⟨(k, v), ?_, ?_⟩
      · exact List.mem_map.mpr ⟨e0, he0, by simp [hek]⟩
      · simp [← h1, h2]
    · refine List.any_eq_true.mpr ⟨e0, ?_, hk0⟩
      refine List.mem_map.mpr ⟨e0, he0, ?_⟩
      simp [hek]
  · rw [if_neg hm]
    obtain ⟨e0, he0, hk0⟩ := List.any_eq_true.mp h
    exact List.any_eq_true.mpr ⟨e0, List.mem_append_left _ he0, hk0⟩

theorem processed_add_self (emp : EmployeeData) (a : String) (t : Tracking)
    (h : a = "cleared" ∨ a = "deleted") :
    is_employee_processed (add_processed_employee emp a t)
      emp.employee_id = true := by
  rcases h with rfl | rfl
  · unfold add_processed_employee is_employee_processed
    simp only [show (("cleared" : String) == "cleared") = true from rfl,
      if_true]
    simp [any_upsert_self]
  · unfold add_processed_employee is_employee_processed
    simp only [show (("deleted" : String) == "cleared") = false from rfl,
      show (("deleted" : String) == "deleted") = true from rfl]
    simp [any_upsert_self]

theorem processed_add_mono (emp : EmployeeData) (a : String) (t : Tracking)
    (eid : String) (h : is_employee_processed t eid = true) :
    is_employee_processed (add_processed_employee emp a t) eid = true := by
  unfold is_employee_processed at h
  rcases Bool.or_eq_true_iff.mp h with hc | hd
  · unfold add_processed_employee is_employee_processed
    by_cases h1 : (a == "cleared") = true
    · simp only [h1, if_true]
      simp [any_upsert_mono _ _ _ _ hc]
    · simp only [h1]
      by_cases h2 : (a == "deleted") = true <;> simp [h1, h2, hc]
  · unfold add_processed_employee is_employee_processed
    by_cases h1 : (a == "cleared") = true
    · simp only [h1, if_true]
      simp [hd]
    · by_cases h2 : (a == "deleted") = true
      · simp only [h1, h2]
        simp [any_upsert_mono _ _ _ _ hd]
      · simp [h1, h2, hd]

theorem clean_tracking_mono (cfg : CleanCfg) (devices : List DeviceSim)
    (emp : EmployeeData) (t : Tracking) (eid : String)
    (h : is_employee_processed t eid = true) :
    is_employee_processed
      (clean_left_employee_complete cfg devices emp t).tracking eid = true := by
  obtain ⟨-, hgood, hbad, -, -⟩ := clean_write_char cfg devices emp t
  cases hA : devices.any goodFlags
  · rw [(hbad hA).1]
    exact h
  · obtain ⟨a, -, -, heq⟩ := hgood hA
    rw [heq]
    exact processed_add_mono emp a t eid h

theorem clean_tracking_self (cfg : CleanCfg) (devices : List DeviceSim)
    (emp : EmployeeData) (t : Tracking) (hA : devices.any goodFlags = true) :
    is_employee_processed
      (clean_left_employee_complete cfg devices emp t).tracking
      emp.employee_id = true := by
  obtain ⟨-, hgood, -, -, -⟩ := clean_write_char cfg devices emp t
  obtain ⟨a, ha, -, heq⟩ := hgood hA
  rw [heq]
  exact processed_add_self emp a t ha

theorem cycle_fold_flags (cfg : CleanCfg) :
    ∀ (l : List EmployeeData) (o : CycleOutcome),
      ((l.foldl (cycleStep cfg) o).devices.any goodFlags) =
        o.devices.any goodFlags := by
  intro l
  induction l with
  | nil => intro o; rfl
  | cons emp rest ih =>
    intro o
    rw [List.foldl_cons, ih]
    exact (clean_write_char cfg o.devices emp o.tracking).2.2.2.2

theorem cycle_fold_processed_mono (cfg : CleanCfg) :
    ∀ (l : List EmployeeData) (o : CycleOutcome) (eid : String),
      is_employee_processed o.tracking eid = true →
      is_employee_processed ((l.foldl (cycleStep cfg) o).tracking) eid =
        true := by
  intro l
  induction l with
  | nil => intro o eid h; exact h
  | cons emp rest ih =>
    intro o eid h
    rw [List.foldl_cons]
    exact ih _ eid (clean_tracking_mono cfg o.devices emp o.tracking eid h)

theorem cycle_fold_all_processed (cfg : CleanCfg) :
    ∀ (l : List EmployeeData) (o : CycleOutcome),
      o.devices.any goodFlags = true →
      ∀ emp ∈ l,
        is_employee_processed ((l.foldl (cycleStep cfg) o).tracking)
          emp.employee_id = true := by
  intro l
  induction l with
  | nil =>
    intro o _ emp hemp
    exact absurd hemp (List.not_mem_nil emp)
  | cons emp0 rest ih =>
    intro o hA emp hemp
    rw [List.foldl_cons]
    rcases List.mem_cons.mp hemp with rfl | hr
    · refine cycle_fold_processed_mono cfg rest _ emp.employee_id ?_
      exact clean_tracking_self cfg o.devices emp o.tracking hA
    · refine ih _ ?_ emp hr
      have := (clean_write_char cfg o.devices emp0 o.tracking).2.2.2.2
      rw [show (cycleStep cfg o emp0).devices =
        (clean_left_employee_complete cfg o.devices emp0 o.tracking).devices
        from rfl, this]
      exact hA

theorem cycle_fold_bad (cfg : CleanCfg) :
    ∀ (l : List EmployeeData) (o : CycleOutcome),
      o.devices.any goodFlags = false →
      (l.foldl (cycleStep cfg) o).mutations = o.mutations ∧
      (l.foldl (cycleStep cfg) o).devices = o.devices := by
  intro l
  induction l with
  | nil => intro o _; exact ⟨rfl, rfl⟩
  | cons emp rest ih =>
    intro o hA
    rw [List.foldl_cons]
    obtain ⟨-, -, hbad, -, -⟩ := clean_write_char cfg o.devices emp o.tracking
    obtain ⟨-, hmut, hdev⟩ := hbad hA
    have hstep_dev : (cycleStep cfg o emp).devices = o.devices := hdev
    have hstep_mut : (cycleStep cfg o emp).mutations = o.mutations := by
      show o.mutations +
        (clean_left_employee_complete cfg o.devices emp o.tracking).mutations =
        o.mutations
      rw [hmut]
      exact Nat.add_zero _
    obtain ⟨ih1, ih2⟩ := ih (cycleStep cfg o emp) (by rw [hstep_dev]; exact hA)
    exact ⟨by rw [ih1, hstep_mut], by rw [ih2, hstep_dev]⟩

theorem cycle_fold_sessions (cfg : CleanCfg) :
    ∀ (l : List EmployeeData) (o : CycleOutcome) (s : String × String),
      s ∈ (l.foldl (cycleStep cfg) o).sessions →
      s ∈ o.sessions ∨ ∃ emp ∈ l, s.1 = emp.employee_id := by
  intro l
  induction l with
  | nil =>
    intro o s hs
    exact Or.inl hs
  | cons emp rest ih =>
    intro o s hs
    rw [List.foldl_cons] at hs
    rcases ih _ s hs with h' | ⟨emp', he', hs'⟩
    · have : s ∈ o.sessions ++ sessionsFor o.devices emp := h'
      rcases List.mem_append.mp this with h'' | h''
      · exact Or.inl h''
      · unfold sessionsFor at h''
        rcases List.mem_map.mp h'' with ⟨d, _, rfl⟩
        exact Or.inr ⟨emp, List.mem_cons_self emp rest, rfl⟩
    · exact Or.inr ⟨emp', List.mem_cons_of_mem emp he', hs'⟩

theorem not_selected_of_processed (cfg : CleanCfg)
    (allLeft : List EmployeeData) (t : Tracking) (eid : String)
    (h : is_employee_processed t eid = true) :
    ∀ emp ∈ get_left_employees_for_cleanup cfg allLeft t,
      emp.employee_id ≠ eid := by
  intro emp hemp heq
  rcases List.mem_filter.mp hemp with ⟨-, hcond⟩
  obtain ⟨hnp, -⟩ := Bool.and_eq_true_iff.mp hcond
  rw [heq] at hnp
  rw [h] at hnp
  exact Bool.noConfusion hnp

theorem notFoundAction_eq (cfg : CleanCfg) (relieving : Option Int) :
    notFoundAction cfg relieving =
      (if shouldPermanentlyDelete cfg relieving = true then "deleted"
       else "cleared") := by
  unfold notFoundAction shouldPermanentlyDelete
  by_cases h : cfg.deleteAfterDays > 0
  · rw [if_pos h, if_pos h]
    rcases relieving with _ | r
    · simp
    · by_cases h2 : cfg.today - r > cfg.deleteAfterDays
      · simp [h2]
      · simp [h2]
  · rw [if_neg h, if_neg h]
    simp

theorem clear_notfound_result (cfg : CleanCfg) (dev : DeviceSim)
    (emp : EmployeeData) (hg : goodFlags dev = true)
    (hnf : userFound dev.users emp.attendance_device_id = false) :
    (clear_employee_templates_from_device cfg dev [emp]).1 =
      ⟨dev.device_id, true, 0, 0,
       some (notFoundAction cfg emp.relieving_date)⟩ := by
  rw [clear_good_device cfg dev [emp] hg]
  have hfold : ([emp].foldl (processEmployeeOnDevice cfg dev.users)
      (⟨dev.users, 0, 0, none, 0⟩ : DeviceLoopState)) =
      processEmployeeOnDevice cfg dev.users
        ⟨dev.users, 0, 0, none, 0⟩ emp := rfl
  have hnotfound : processEmployeeOnDevice cfg dev.users
      (⟨dev.users, 0, 0, none, 0⟩ : DeviceLoopState) emp =
      { (⟨dev.users, 0, 0, none, 0⟩ : DeviceLoopState) with
        action_type := some (notFoundAction cfg emp.relieving_date) } := by
    unfold processEmployeeOnDevice
    rw [if_neg (by simp [hnf])]
  rw [hfold, hnotfound]

/-- C3 (corrected): for every employee, the cleanup runs the action against
every configured terminal (one result per terminal); at most one tracking
record is written after all terminals have been attempted — exactly one
when at least one terminal attempt succeeded, and none when every terminal
fails (so the original "exactly one record regardless of how many
terminals succeeded" does not hold; see the counterexample). A terminal on
which the employee's `device_user_id` is not found counts as an implicit
success for the decision to write the tracking record: its result is a
success with zero cleared/deleted counts and it reports the action
`notFoundAction`, which is the default `"cleared"` in every case except
when the purge threshold is exceeded; when the employee is found on no
terminal and the purge condition does not hold, the tracking record is
written with the default action `"cleared"`. -/
theorem clean_engine_one_tracking_write (cfg : CleanCfg)
    (devices : List DeviceSim) (emp : EmployeeData) (t : Tracking) :
    (clean_left_employee_complete cfg devices emp t).results.length =
      devices.length ∧
    (clean_left_employee_complete cfg devices emp t).writes ≤ 1 ∧
    ((clean_left_employee_complete cfg devices emp t).writes = 1 ↔
      ∃ r ∈ (clean_left_employee_complete cfg devices emp t).results,
        r.success = true) ∧
    (∀ dev ∈ devices, goodFlags dev = true →
      userFound dev.users emp.attendance_device_id = false →
      (clear_employee_templates_from_device cfg dev [emp]).1.success = true ∧
      (clear_employee_templates_from_device cfg dev [emp]).1.cleared_count = 0 ∧
      (clear_employee_templates_from_device cfg dev [emp]).1.deleted_count = 0 ∧
      (clear_employee_templates_from_device cfg dev [emp]).1.action_type =
        some (notFoundAction cfg emp.relieving_date)) ∧
    (notFoundAction cfg emp.relieving_date =
      if shouldPermanentlyDelete cfg emp.relieving_date = true then "deleted"
      else "cleared") ∧
    ((∀ dev ∈ devices, userFound dev.users emp.attendance_device_id = false) →
      (∃ r ∈ (clean_left_employee_complete cfg devices emp t).results,
        r.success = true) →
      shouldPermanentlyDelete cfg emp.relieving_date = false →
      (clean_left_employee_complete cfg devices emp t).tracking =
        add_processed_employee emp "cleared" t ∧
      (clean_left_employee_complete cfg devices emp t).writes = 1) := by
  obtain ⟨hw, hgood, -, hlen, -⟩ := clean_write_char cfg devices emp t
  have hres : (clean_left_employee_complete cfg devices emp t).results =
      devices.map
        (fun d => (clear_employee_templates_from_device cfg d [emp]).1) := by
    have h1 : (clean_left_employee_complete cfg devices emp t).results =
        (runDevices cfg emp devices).results := by
      simp only [clean_left_employee_complete]
      (repeat' split) <;> rfl
    rw [h1, runDevices_spec]
  have hAofSucc : (∃ r ∈ (clean_left_employee_complete cfg devices emp
      t).results, r.success = true) → devices.any goodFlags = true := by
    intro ⟨r, hr, hsucc⟩
    rw [hres] at hr
    rcases List.mem_map.mp hr with ⟨d, hd, rfl⟩
    rw [clear_success_eq_goodFlags] at hsucc
    exact List.any_eq_true.mpr ⟨d, hd, hsucc⟩
  refine ⟨hlen, ?_, ?_, ?_, notFoundAction_eq cfg emp.relieving_date, ?_⟩
  · rw [hw]
    cases devices.any goodFlags <;> simp
  · rw [hw]
    constructor
    · intro h1
      have hA : devices.any goodFlags = true := by
        cases hA : devices.any goodFlags
        · rw [hA] at h1; simp at h1
        · rfl
      obtain ⟨d, hd, hdg⟩ := List.any_eq_true.mp hA
      refine ⟨(clear_employee_templates_from_device cfg d [emp]).1, ?_, ?_⟩
      · rw [hres]
        exact List.mem_map.mpr ⟨d, hd, rfl⟩
      · rw [clear_success_eq_goodFlags]
        exact hdg
    · intro hex
      rw [hAofSucc hex]
      rfl
  · intro dev hdev hg hnf
    rw [clear_notfound_result cfg dev emp hg hnf]
    exact ⟨rfl, rfl, rfl, rfl⟩
  · intro hallnf hex hpurge
    have hA : devices.any goodFlags = true := hAofSucc hex
    obtain ⟨a, -, hfa, htrack⟩ := hgood hA
    have hacl : a = "cleared" := by
      obtain ⟨r, hrmem, hract⟩ := findSome?_mem_of_eq_some _ _ a hfa
      rw [runDevices_spec] at hrmem
      have hrmem' : r ∈ devices.map
          (fun d => (clear_employee_templates_from_device cfg d [emp]).1) :=
        hrmem
      rcases List.mem_map.mp hrmem' with ⟨d, hd, rfl⟩
      cases hg : goodFlags d
      · rw [clear_bad_device cfg d [emp] hg] at hract
        exact Option.noConfusion hract
      · rw [clear_notfound_result cfg d emp hg (hallnf d hd)] at hract
        have : notFoundAction cfg emp.relieving_date = a :=
          Option.some.inj hract
        rw [← this, notFoundAction_eq, hpurge]
        rfl
    subst hacl
    refine ⟨htrack, ?_⟩
    rw [hw, hA]
    rfl

/-- Counterexample to C3 as stated: with a single unreachable terminal,
all terminals are attempted (one result) yet zero tracking records are
written and the tracking store is unchanged, so a record is not written
"regardless of how many terminals succeeded". -/
theorem clean_tracking_write_counterexample :
    (clean_left_employee_complete ⟨1000, 7, 0⟩
      [⟨"machine_1", false, false, false, []⟩]
      ⟨"HR-1", "TIQN-0001", "Nguyen Van A", "123", some 900⟩
      ⟨[], []⟩).results.length = 1 ∧
    (clean_left_employee_complete ⟨1000, 7, 0⟩
      [⟨"machine_1", false, false, false, []⟩]
      ⟨"HR-1", "TIQN-0001", "Nguyen Van A", "123", some 900⟩
      ⟨[], []⟩).writes = 0 ∧
    (clean_left_employee_complete ⟨1000, 7, 0⟩
      [⟨"machine_1", false, false, false, []⟩]
      ⟨"HR-1", "TIQN-0001", "Nguyen Van A", "123", some 900⟩
      ⟨[], []⟩).tracking = ⟨[], []⟩ := by
  refine ⟨?_, ?_, ?_⟩ <;> rfl

/-- Witness for `clean_engine_one_tracking_write`: a healthy terminal that
does not hold device user "123" yields an implicit success with zero
counts reporting the default action, and the employee (purge disabled) is
recorded with the default action "cleared" by a single write. -/
theorem clean_engine_one_tracking_write_witness :
    ((clear_employee_templates_from_device ⟨1000, 7, 0⟩
      ⟨"machine_1", true, true, true, []⟩
      [⟨"HR-1", "TIQN-0001", "Nguyen Van A", "123", some 900⟩]).1.success
        = true ∧
    (clear_employee_templates_from_device ⟨1000, 7, 0⟩
      ⟨"machine_1", true, true, true, []⟩
      [⟨"HR-1", "TIQN-0001", "Nguyen Van A", "123", some 900⟩]).1.cleared_count
        = 0 ∧
    (clear_employee_templates_from_device ⟨1000, 7, 0⟩
      ⟨"machine_1", true, true, true, []⟩
      [⟨"HR-1", "TIQN-0001", "Nguyen Van A", "123", some 900⟩]).1.deleted_count
        = 0 ∧
    (clear_employee_templates_from_device ⟨1000, 7, 0⟩
      ⟨"machine_1", true, true, true, []⟩
      [⟨"HR-1", "TIQN-0001", "Nguyen Van A", "123", some 900⟩]).1.action_type
        = some (notFoundAction ⟨1000, 7, 0⟩ (some 900))) ∧
    ((clean_left_employee_complete ⟨1000, 7, 0⟩
      [⟨"machine_1", true, true, true, []⟩]
      ⟨"HR-1", "TIQN-0001", "Nguyen Van A", "123", some 900⟩
      ⟨[], []⟩).tracking =
        add_processed_employee
          ⟨"HR-1", "TIQN-0001", "Nguyen Van A", "123", some 900⟩
          "cleared" ⟨[], []⟩ ∧
    (clean_left_employee_complete ⟨1000, 7, 0⟩
      [⟨"machine_1", true, true, true, []⟩]
      ⟨"HR-1", "TIQN-0001", "Nguyen Van A", "123", some 900⟩
      ⟨[], []⟩).writes = 1) :=
  ⟨(clean_engine_one_tracking_write ⟨1000, 7, 0⟩
      [⟨"machine_1", true, true, true, []⟩]
      ⟨"HR-1", "TIQN-0001", "Nguyen Van A", "123", some 900⟩ ⟨[], []⟩).2.2.2.1
      ⟨"machine_1", true, true, true, []⟩ (by decide) (by decide) (by decide),
   (clean_engine_one_tracking_write ⟨1000, 7, 0⟩
      [⟨"machine_1", true, true, true, []⟩]
      ⟨"HR-1", "TIQN-0001", "Nguyen Van A", "123", some 900⟩
      ⟨[], []⟩).2.2.2.2.2 (by decide) (by decide) (by decide)⟩

/-- C4: an employee recorded in the tracking store (in either map) is never
selected for processing and no device session is opened for them; and
running the cleanup twice in succession performs zero device mutations the
second time. -/
theorem cleanup_skips_tracked_and_idempotent (cfg : CleanCfg)
    (allLeft : List EmployeeData) (devices : List DeviceSim) (t : Tracking) :
    (∀ eid, is_employee_processed t eid = true →
      (∀ emp ∈ get_left_employees_for_cleanup cfg allLeft t,
        emp.employee_id ≠ eid) ∧
      (∀ s ∈ (run_cleanup cfg allLeft devices t).sessions, s.1 ≠ eid)) ∧
    (run_cleanup cfg allLeft (run_cleanup cfg allLeft devices t).devices
      (run_cleanup cfg allLeft devices t).tracking).mutations = 0 := by
  constructor
  · intro eid h
    have hsel := not_selected_of_processed cfg allLeft t eid h
    refine ⟨hsel, ?_⟩
    intro s hs
    have hs' : s ∈ ((get_left_employees_for_cleanup cfg allLeft t).foldl
        (cycleStep cfg) ⟨devices, t, 0, []⟩).sessions := hs
    rcases cycle_fold_sessions cfg _ _ s hs' with h' | ⟨emp, hemp, hseq⟩
    · exact absurd h' (List.not_mem_nil s)
    · rw [hseq]
      exact hsel emp hemp
  · set run1 := run_cleanup cfg allLeft devices t with hrun1
    have hrun2 : run_cleanup cfg allLeft run1.devices run1.tracking =
        (get_left_employees_for_cleanup cfg allLeft run1.tracking).foldl
          (cycleStep cfg) ⟨run1.devices, run1.tracking, 0, []⟩ := rfl
    cases hA : devices.any goodFlags
    · -- no usable terminal: both cycles are mutation-free
      have h1 := cycle_fold_bad cfg
        (get_left_employees_for_cleanup cfg allLeft t)
        ⟨devices, t, 0, []⟩ hA
      have hdev1 : run1.devices = devices := h1.2
      have h2 := cycle_fold_bad cfg
        (get_left_employees_for_cleanup cfg allLeft run1.tracking)
        ⟨run1.devices, run1.tracking, 0, []⟩
        (by show run1.devices.any goodFlags = false; rw [hdev1]; exact hA)
      rw [hrun2]
      exact h2.1
    · -- a usable terminal exists: run 1 tracks every selected employee,
      -- so the second selection is empty
      have hready2 : get_left_employees_for_cleanup cfg allLeft
          run1.tracking = [] := by
        rw [List.eq_nil_iff_forall_not_mem]
        intro emp hemp
        rcases List.mem_filter.mp hemp with ⟨hin, hcond⟩
        obtain ⟨hnp, hcls⟩ := Bool.and_eq_true_iff.mp hcond
        have hnp' : is_employee_processed run1.tracking emp.employee_id =
            false := by
          cases hx : is_employee_processed run1.tracking emp.employee_id
          · rfl
          · rw [hx] at hnp
            exact Bool.noConfusion hnp
        by_cases hp0 : is_employee_processed t emp.employee_id = true
        · have hmono := cycle_fold_processed_mono cfg
            (get_left_employees_for_cleanup cfg allLeft t)
            ⟨devices, t, 0, []⟩ emp.employee_id hp0
          have hmono' : is_employee_processed run1.tracking
              emp.employee_id = true := hmono
          rw [hmono'] at hnp'
          exact Bool.noConfusion hnp'
        · have hp0' : is_employee_processed t emp.employee_id = false := by
            cases hx : is_employee_processed t emp.employee_id
            · rfl
            · exact absurd hx hp0
          have hmem1 : emp ∈ get_left_employees_for_cleanup cfg allLeft t := by
            refine List.mem_filter.mpr ⟨hin, ?_⟩
            refine Bool.and_eq_true_iff.mpr ⟨?_, hcls⟩
            rw [hp0']
            rfl
          have hall := cycle_fold_all_processed cfg
            (get_left_employees_for_cleanup cfg allLeft t)
            ⟨devices, t, 0, []⟩ hA emp hmem1
          have hall' : is_employee_processed run1.tracking
              emp.employee_id = true := hall
          rw [hall'] at hnp'
          exact Bool.noConfusion hnp'
      rw [hrun2, hready2]
      rfl

/-- Witness for `cleanup_skips_tracked_and_idempotent`: with the demo
fixtures, the tracked employee `E9` is neither selected nor given a
session, and an immediate second cycle performs zero device mutations. -/
theorem cleanup_skips_tracked_and_idempotent_witness :
    ((∀ emp ∈ get_left_employees_for_cleanup demoCfg demoEmployees
        demoTracking, emp.employee_id ≠ "E9") ∧
      (∀ s ∈ (run_cleanup demoCfg demoEmployees demoDevices
        demoTracking).sessions, s.1 ≠ "E9")) ∧
    (run_cleanup demoCfg demoEmployees
      (run_cleanup demoCfg demoEmployees demoDevices demoTracking).devices
      (run_cleanup demoCfg demoEmployees demoDevices
        demoTracking).tracking).mutations = 0 :=
  ⟨(cleanup_skips_tracked_and_idempotent demoCfg demoEmployees demoDevices
      demoTracking).1 "E9" (by decide),
   (cleanup_skips_tracked_and_idempotent demoCfg demoEmployees demoDevices
      demoTracking).2⟩

/-- C6: saving the tracking store is atomic with respect to the canonical
file: the full new state is written to the temporary file first, the
canonical file is changed only by the single `os.replace` step, a crash at
any point strictly before the replace leaves the prior canonical file
fully intact, and a completed save installs exactly the full new state. -/
theorem save_tracking_atomic (data : Tracking) (fs : TrackFS) :
    (save_processed_employees data fs).canonical = some data ∧
    (∀ n, n < saveSteps.length →
      (saveCrashAt data fs n).canonical = fs.canonical) ∧
    (∀ s, s ≠ SaveStep.replace →
      (applySaveStep data fs s).canonical = fs.canonical) ∧
    (applySaveStep data fs SaveStep.writeTemp).temp = some data := by
  refine ⟨rfl, ?_, ?_, rfl⟩
  · intro n hn
    match n with
    | 0 => rfl
    | 1 => rfl
    | n + 2 => simp [saveSteps] at hn
  · intro s hs
    cases s
    · rfl
    · exact absurd rfl hs

/-- Witness for `save_tracking_atomic`: a concrete prior file and new
state; a crash after the temp write (one step) leaves the canonical file
holding the old state. -/
theorem save_tracking_atomic_witness :
    (save_processed_employees
      ⟨[("E1", ⟨"TIQN-0001", "cleared_templates"⟩)], []⟩
      ⟨some ⟨[], []⟩, none⟩).canonical =
      some ⟨[("E1", ⟨"TIQN-0001", "cleared_templates"⟩)], []⟩ ∧
    (saveCrashAt ⟨[("E1", ⟨"TIQN-0001", "cleared_templates"⟩)], []⟩
      ⟨some ⟨[], []⟩, none⟩ 1).canonical = some ⟨[], []⟩ :=
  ⟨(save_tracking_atomic
      ⟨[("E1", ⟨"TIQN-0001", "cleared_templates"⟩)], []⟩
      ⟨some ⟨[], []⟩, none⟩).1,
   (save_tracking_atomic
      ⟨[("E1", ⟨"TIQN-0001", "cleared_templates"⟩)], []⟩
      ⟨some ⟨[], []⟩, none⟩).2.1 1 (by decide)⟩

theorem loadLoop_all_parseError :
    ∀ (l : List ReadAttempt), (∀ a ∈ l, a = ReadAttempt.parseError) →
      loadLoop l = ⟨[], []⟩ := by
  intro l
  induction l with
  | nil => intro _; rfl
  | cons a rest ih =>
    intro h
    have ha : a = ReadAttempt.parseError := h a (List.mem_cons_self a rest)
    subst ha
    cases rest with
    | nil => rfl
    | cons b rest' =>
      have : loadLoop (ReadAttempt.parseError :: b :: rest') =
          loadLoop (b :: rest') := rfl
      rw [this]
      exact ih fun x hx => h x (List.mem_cons_of_mem _ hx)

/-- C7: loading the tracking store is total and always yields a state with
both maps: a missing file or empty content yields the empty state, a parse
failure on every attempt yields the empty state rather than an error, a
parse failure followed by a successful parse recovers the parsed data with
missing keys filled in, and any other read error yields the empty state. -/
theorem load_tracking_total (fileExists : Bool)
    (attempts : List ReadAttempt) :
    (fileExists = false →
      load_processed_employees fileExists attempts = ⟨[], []⟩) ∧
    ((∀ a ∈ attempts, a = ReadAttempt.parseError) →
      load_processed_employees fileExists attempts = ⟨[], []⟩) ∧
    (∀ rest, fileExists = true →
      attempts = ReadAttempt.emptyContent :: rest →
      load_processed_employees fileExists attempts = ⟨[], []⟩) ∧
    (∀ rest, fileExists = true →
      attempts = ReadAttempt.otherError :: rest →
      load_processed_employees fileExists attempts = ⟨[], []⟩) ∧
    (∀ c d rest, fileExists = true →
      attempts = ReadAttempt.parseError :: ReadAttempt.parsed c d :: rest →
      load_processed_employees fileExists attempts = ensureStructure c d ∧
      (load_processed_employees fileExists attempts).cleared = c.getD [] ∧
      (load_processed_employees fileExists attempts).deleted = d.getD []) := by
  refine ⟨?_, ?_, ?_, ?_, ?_⟩
  · intro hfe
    subst hfe
    rfl
  · intro hall
    unfold load_processed_employees
    cases fileExists
    · rfl
    · simpa using loadLoop_all_parseError attempts hall
  · intro rest hfe hatt
    subst hfe hatt
    rfl
  · intro rest hfe hatt
    subst hfe hatt
    rfl
  · intro c d rest hfe hatt
    subst hfe hatt
    exact ⟨rfl, rfl, rfl⟩

/-- Witness for `load_tracking_total`: a transient parse failure followed
by a successful parse of a file whose `deleted` key is missing recovers
the parsed map and fills the missing key with the empty map. -/
theorem load_tracking_total_witness :
    load_processed_employees true
      [ReadAttempt.parseError,
       ReadAttempt.parsed
         (some [("E1", ⟨"TIQN-0001", "cleared_templates"⟩)]) none,
       ReadAttempt.parseError] =
      ensureStructure
        (some [("E1", ⟨"TIQN-0001", "cleared_templates"⟩)]) none ∧
    (load_processed_employees true
      [ReadAttempt.parseError,
       ReadAttempt.parsed
         (some [("E1", ⟨"TIQN-0001", "cleared_templates"⟩)]) none,
       ReadAttempt.parseError]).deleted = [] :=
  ⟨((load_tracking_total true _).2.2.2.2
      (some [("E1", ⟨"TIQN-0001", "cleared_templates"⟩)]) none
      [ReadAttempt.parseError] rfl rfl).1,
   ((load_tracking_total true _).2.2.2.2
      (some [("E1", ⟨"TIQN-0001", "cleared_templates"⟩)]) none
      [ReadAttempt.parseError] rfl rfl).2.2⟩

/-- Counterexample to C8 as stated: when the re-enable call raises after a
successful connect and disable, the session is never closed (the `except:
pass` swallows the error and skips the disconnect), so "the session is
always closed" fails. -/
theorem session_always_closed_counterexample :
    SessEvent.connect ∈
      (deviceSessionTrace ⟨true, true, true, true, false, true⟩).1 ∧
    SessEvent.disable ∈
      (deviceSessionTrace ⟨true, true, true, true, false, true⟩).1 ∧
    SessEvent.close ∉
      (deviceSessionTrace ⟨true, true, true, true, false, true⟩).1 := by
  decide

/-- C8 (corrected): on every exit path after a connection is established,
the `finally` block attempts the intake re-enable before the close; the
session is closed exactly when the operation connected and both the
re-enable and the disconnect calls succeed; whenever the session is
closed, intake was successfully re-enabled strictly before the close; and
no event occurs without a connection. When the re-enable raises, the close
is skipped (both errors suppressed), so the original "the session is
always closed" does not hold (see the counterexample). -/
theorem session_finally_discipline (b : SessBehavior) :
    ((deviceSessionTrace b).1 ≠ [] →
      SessEvent.connect ∈ (deviceSessionTrace b).1) ∧
    (SessEvent.close ∈ (deviceSessionTrace b).1 →
      SessEvent.enable ∈ (deviceSessionTrace b).1 ∧
      (deviceSessionTrace b).1.indexOf SessEvent.enable <
        (deviceSessionTrace b).1.indexOf SessEvent.close ∧
      b.enableOk = true ∧ b.disconnectOk = true) ∧
    (SessEvent.connect ∈ (deviceSessionTrace b).1 → b.enableOk = true →
      b.disconnectOk = true →
      SessEvent.close ∈ (deviceSessionTrace b).1) := by
  obtain ⟨r, c, d, bo, e, di⟩ := b
  cases r <;> cases c <;> cases d <;> cases bo <;> cases e <;> cases di <;>
    decide

/-- Witness for `session_finally_discipline`: a fully healthy session is
closed, with intake re-enabled before the close. -/
theorem session_finally_discipline_witness :
    SessEvent.close ∈
      (deviceSessionTrace ⟨true, true, true, true, true, true⟩).1 :=
  (session_finally_discipline ⟨true, true, true, true, true, true⟩).2.2
    (by decide) rfl rfl

end BiometricSync
